import Mathlib

/-
  Verification development for the MiniData repository (src/JSON.h, src/JSON.cpp,
  src/CSV.h, src/CSV.cpp).

  The C++ code is shallowly embedded in Lean 4:
    * a JSON value (class JSON, a shared handle to an immutable BaseJSON node)
      becomes the inductive type `JSON`;
    * strings are modelled as lists of Unicode code points (the spec's data
      model: "String: a sequence of Unicode code points, stored and compared as
      decoded text"), so `List Nat` stands both for std::string content after
      decoding and for textual streams of characters;
    * the fatal-error facility `error(msg)` (the StanfordCPPLib collaborator,
      declared in error.h, not part of src/) aborts the operation with a
      message; fallible operations are therefore embedded as
      `Except Msg result` where `Msg` is the message text;
    * the recursive-descent parser is embedded as a step function that is
      structurally recursive on an explicit fuel argument.  The fuel is an
      artifact of the embedding: a distinguished out-of-fuel message
      `fuelMsg`, never produced by the real code, marks exhaustion, and the
      round-trip theorems supply sufficient fuel explicitly;
    * the Unicode codec collaborator (Unicode.h: readChar, peekChar, toUTF8,
      utf16EscapeFor, readUTF16EscapedChar) is not part of src/.  Definitions
      that stand for it are modelled from the spec (section 6, "Collaborator:
      Unicode codec") and are marked as such in their doc comments.  Streams
      are modelled at the code-point level, which identifies
      `decode-one`/`encode-UTF8` with the identity on Unicode scalar values.
-/

/-! ## Basic text machinery -/

/-- A message / piece of text, as a list of Unicode code points (`Nat`). -/
abbrev Msg := List Nat

/-- Converts a Lean string literal to its list of code points. -/
def cp (s : String) : Msg := s.data.map Char.toNat

/-- Whitespace recognized by `std::ws` (the C and C++ default locale:
space, tab, newline, vertical tab, form feed, carriage return). -/
def isWs (c : Nat) : Bool :=
  c == 0x20 || c == 0x09 || c == 0x0A || c == 0x0B || c == 0x0C || c == 0x0D

/-- `input >> std::ws`: skip whitespace characters. -/
def dropWs (l : List Nat) : List Nat := l.dropWhile isWs

/-- `isDigit` from JSON.cpp: `ch >= '0' && ch <= '9'`. -/
def isDigit (c : Nat) : Bool := 0x30 ≤ c && c ≤ 0x39

/-- Decimal rendering of one digit value. -/
def digitChar (d : Nat) : Nat := 0x30 + d

/-- Auxiliary decimal printer, structurally recursive on fuel so that it
evaluates inside the kernel. -/
def natToDecimalAux : Nat → Nat → Msg
  | 0, _ => []
  | f + 1, n => if n < 10 then [digitChar n]
                else natToDecimalAux f (n / 10) ++ [digitChar (n % 10)]

/-- `std::to_string` on an unsigned integer: its decimal digits. -/
def natToDecimal (n : Nat) : Msg := natToDecimalAux (n + 1) n

/-! ## The value model (JSON.h / JSON.cpp)

The node hierarchy BaseJSON / NullJSON / BoolJSON / NumberJSON / StringJSON /
ArrayJSON / ObjectJSON is a closed set of six variants; the handle class JSON
shares one immutable node.  The embedding flattens handle + node into one
inductive tree.

* `NumberJSON` stores a C++ `double`; the embedding uses `ℚ`.  Every finite
  double is a rational number, and all operations the claims exercise
  (construction, retrieval, comparison against small integer literals,
  truncation to an index) are exact on the stored value, so no floating-point
  rounding enters the picture.
* `ObjectJSON` stores a `std::unordered_map<std::string, JSON>`, a mapping
  with unique keys and unspecified iteration order.  The embedding stores the
  key/value pairs as a list in the map's iteration order; uniqueness of keys
  is carried as a hypothesis where it matters.
-/

/-- The variant tags, `JSON::Type` in JSON.h. -/
inductive JType where
  | OBJECT
  | ARRAY
  | STRING
  | NUMBER
  | BOOLEAN
  | NULLPTR_T
deriving DecidableEq, Repr

/-- A JSON value: the handle class `JSON` together with the node it owns. -/
inductive JSON where
  | null
  | boolean (value : Bool)
  | number (value : ℚ)
  | string (value : Msg)
  | array (elems : List JSON)
  | object (elems : List (Msg × JSON))

/-- `BaseJSON::type()`: each node class fixes its tag at construction. -/
def JSON.jtype : JSON → JType
  | .null => .NULLPTR_T
  | .boolean _ => .BOOLEAN
  | .number _ => .NUMBER
  | .string _ => .STRING
  | .array _ => .ARRAY
  | .object _ => .OBJECT

/-- `typeid(*base).name()` on the dynamic node type.  The C++ result is an
implementation-defined encoding of the class name; the embedding uses the
plain class name. -/
def typeName : JSON → Msg
  | .null => cp "NullJSON"
  | .boolean _ => cp "BoolJSON"
  | .number _ => cp "NumberJSON"
  | .string _ => cp "StringJSON"
  | .array _ => cp "ArrayJSON"
  | .object _ => cp "ObjectJSON"

/-- The message produced by the checked downcast `as<Target>` in JSON.cpp when
the dynamic type does not match. -/
def mismatchMsg (actual target : Msg) : Msg :=
  cp "Wrong JSON type. Actual type is " ++ actual ++
    cp ", which can't be converted to " ++ target

/-- `JSON::asNull`: `as<NullJSON>(mImpl)->value()`. -/
def JSON.asNull : JSON → Except Msg Unit
  | .null => .ok ()
  | v => .error (mismatchMsg (typeName v) (cp "NullJSON"))

/-- `JSON::asBoolean`: `as<BoolJSON>(mImpl)->value()`. -/
def JSON.asBoolean : JSON → Except Msg Bool
  | .boolean b => .ok b
  | v => .error (mismatchMsg (typeName v) (cp "BoolJSON"))

/-- `JSON::asNumber`: `as<NumberJSON>(mImpl)->value()`. -/
def JSON.asNumber : JSON → Except Msg ℚ
  | .number q => .ok q
  | v => .error (mismatchMsg (typeName v) (cp "NumberJSON"))

/-- `JSON::asString`: `as<StringJSON>(mImpl)->value()`. -/
def JSON.asString : JSON → Except Msg Msg
  | .string s => .ok s
  | v => .error (mismatchMsg (typeName v) (cp "StringJSON"))

/-- `ArrayJSON::operator[](size_t)`: bound check, then element access. -/
def arrayGet (elems : List JSON) (index : Nat) : Except Msg JSON :=
  if h : elems.length ≤ index then
    .error (cp "Index out of range: " ++ natToDecimal index ++
            cp ", but size is " ++ natToDecimal elems.length)
  else .ok (elems.get ⟨index, by omega⟩)

/-- `JSON::operator[](size_t)`: `(*as<ArrayJSON>(mImpl))[index]`. -/
def JSON.getIdx : JSON → Nat → Except Msg JSON
  | .array es, index => arrayGet es index
  | v, _ => .error (mismatchMsg (typeName v) (cp "ArrayJSON"))

/-- `ObjectJSON::contains`: `mElems.count(key)`. -/
def objContains (elems : List (Msg × JSON)) (key : Msg) : Bool :=
  (elems.map Prod.fst).contains key

/-- `ObjectJSON::operator[](const string&)`: contains check, then `mElems.at`. -/
def objectGet (elems : List (Msg × JSON)) (key : Msg) : Except Msg JSON :=
  match elems.lookup key with
  | some v => .ok v
  | none => .error (cp "Key " ++ key ++ cp " does not exist.")

/-- `JSON::operator[](const string&)`: `(*as<ObjectJSON>(mImpl))[key]`. -/
def JSON.getKey : JSON → Msg → Except Msg JSON
  | .object ms, key => objectGet ms key
  | v, _ => .error (mismatchMsg (typeName v) (cp "ObjectJSON"))

/-- `JSON::contains`: `as<ObjectJSON>(mImpl)->contains(key)`. -/
def JSON.containsKey : JSON → Msg → Except Msg Bool
  | .object ms, key => .ok (objContains ms key)
  | v, _ => .error (mismatchMsg (typeName v) (cp "ObjectJSON"))

/-- `JSON::size`: `as<IterableJSON>(mImpl)->size()`; Array and Object are the
two IterableJSON subclasses. -/
def JSON.jsize : JSON → Except Msg Nat
  | .array es => .ok es.length
  | .object ms => .ok ms.length
  | v => .error (mismatchMsg (typeName v) (cp "IterableJSON"))

/-- The C++ conversion from a non-negative `double` to `size_t`: truncation
toward zero, which on non-negative values is the floor.  (Converting a
negative double to an unsigned type is undefined behavior in the source; the
theorems about this function restrict to non-negative keys.) -/
def doubleToSizeT (q : ℚ) : Nat := q.floor.toNat

/-- `JSON::operator[](JSON)`: dispatch on the key's type; a Number key goes
through `asNumber()` to the `size_t` overload, a String key through
`asString()` to the string overload, anything else is a fatal error. -/
def JSON.getGeneric (v : JSON) : JSON → Except Msg JSON
  | .number q => v.getIdx (doubleToSizeT q)
  | .string s => v.getKey s
  | _ => .error (cp "Cannot use this JSON object as a key.")

/-! ## The iteration protocol (JSONSource, JSON::const_iterator)

`IterableJSON::source()` produces a generator object.  `ArrayJSON` wraps a
pair of vector iterators (`VectorJSONSource`); the embedding keeps the list of
elements not yet yielded.  `ObjectJSON` wraps a pair of map iterators plus a
staged String value for the current key (`MapJSONSource`); the embedding
keeps the list of pairs not yet passed plus the staged value.
-/

/-- The generator state behind a `shared_ptr<JSONSource>`. -/
inductive JSONSource where
  | vec (remaining : List JSON)
  | map (remaining : List (Msg × JSON)) (staged : JSON)

/-- The `MapJSONSource` constructor: `mStaged` starts as `JSON(nullptr)` and
is replaced by a String value of the first key when the map is nonempty. -/
def mkMapSource (ms : List (Msg × JSON)) : JSONSource :=
  .map ms (match ms with
           | [] => .null
           | m :: _ => .string m.1)

/-- `JSONSource::advance`.  (`VectorJSONSource` increments `mCurr`;
incrementing past the end is undefined behavior in C++, the model just keeps
an empty remainder.  `MapJSONSource` increments and restages the next key if
one exists, leaving `mStaged` untouched at the end.) -/
def JSONSource.advance : JSONSource → JSONSource
  | .vec l => .vec l.tail
  | .map l staged =>
      .map l.tail (match l.tail with
                   | [] => staged
                   | m :: _ => .string m.1)

/-- `JSONSource::finished`: `mCurr == mEnd`. -/
def JSONSource.finished : JSONSource → Bool
  | .vec l => l.isEmpty
  | .map l _ => l.isEmpty

/-- `JSONSource::current`.  (For `VectorJSONSource` at the end this
dereferences the end iterator, which is undefined behavior in the source; the
model returns `null` there, and no theorem relies on that value.
`MapJSONSource` returns `mStaged`.) -/
def JSONSource.current : JSONSource → JSON
  | .vec l => l.headD .null
  | .map _ staged => staged

/-- `IterableJSON::source()` as reached through `JSON::begin()`:
`as<IterableJSON>(mImpl)->source()`.  Fails with the `as<IterableJSON>`
mismatch on the four non-iterable variants. -/
def JSON.beginSource : JSON → Except Msg JSONSource
  | .array es => .ok (.vec es)
  | .object ms => .ok (mkMapSource ms)
  | v => .error (mismatchMsg (typeName v) (cp "IterableJSON"))

/-- One full single-pass traversal, as a range-for loop performs it: while the
cursor is not finished, yield `current()` and `advance()`.  Fuel-structural so
it evaluates in the kernel; `remaining.length` fuel always suffices. -/
def JSONSource.drain : Nat → JSONSource → List JSON
  | 0, _ => []
  | f + 1, s => if s.finished then [] else s.current :: drain f s.advance

/-- `JSON::const_iterator`.  Its single field is a
`shared_ptr<JSONSource>`: `none` models the null pointer of a
default-constructed (end) iterator; `some (a, s)` models a pointer to a
generator in state `s` living at address `a`.  The address tag models object
identity: `shared_ptr::operator==` compares addresses, and distinct
`make_shared` allocations (one per `begin()` call) have distinct addresses. -/
structure ConstIterator where
  impl : Option (Nat × JSONSource)

/-- `JSON::const_iterator::operator==`, case for case from JSON.cpp:
both null; we're null, they aren't; they're null, we aren't; neither null
(pointer identity, the states are not consulted). -/
def iterEq (a b : ConstIterator) : Bool :=
  match a.impl, b.impl with
  | none, none => true
  | none, some (_, s) => s.finished
  | some (_, s), none => s.finished
  | some (i, _), some (j, _) => i == j

/-- `JSON::end()`: a default-constructed iterator (null `shared_ptr`). -/
def iterEnd : ConstIterator := ⟨none⟩

/-! ## The serializer (print routines in JSON.cpp)

`operator<<(ostream&, JSON)` calls the node's virtual `print`.  `printString`
re-reads the stored string through the Unicode codec's `readChar` and emits
one escape or raw character per code point; since the embedding stores
strings as decoded code points already, it maps directly over them.
-/

/-- `utf16EscapeFor` — Modelled from the spec: this function lives in the
Unicode codec collaborator (Unicode.h), which is not part of src/.  Spec §6:
"escape-for(code point) → \uXXXX text, emitting one escape for code points
≤0xFFFF and a surrogate-pair escape otherwise."  Hex digits are rendered
uppercase; the parser-side decoder accepts both cases. -/
def hexDigitChar (d : Nat) : Nat := if d < 10 then 0x30 + d else 0x41 + (d - 10)

/-- Four-hex-digit rendering of a 16-bit value (the `XXXX` of `\uXXXX`). -/
def toHex4 (n : Nat) : Msg :=
  [hexDigitChar (n / 4096 % 16), hexDigitChar (n / 256 % 16),
   hexDigitChar (n / 16 % 16), hexDigitChar (n % 16)]

/-- `utf16EscapeFor` — Modelled from the spec (see `hexDigitChar`): a single
`\uXXXX` escape for code points up to 0xFFFF, a surrogate-pair escape
`\uXXXX\uXXXX` above that. -/
def utf16EscapeFor (c : Nat) : Msg :=
  if c ≤ 0xFFFF then 0x5C :: 0x75 :: toHex4 c
  else
    let v := c - 0x10000
    (0x5C :: 0x75 :: toHex4 (0xD800 + v / 0x400)) ++
    (0x5C :: 0x75 :: toHex4 (0xDC00 + v % 0x400))

/-- The per-character branch of `printString` in JSON.cpp. -/
def escapeChar (c : Nat) : Msg :=
  if c = 0x22 then [0x5C, 0x22]        -- \"
  else if c = 0x5C then [0x5C, 0x5C]   -- backslash
  else if c = 0x2F then [0x5C, 0x2F]   -- \/
  else if c = 0x08 then [0x5C, 0x62]   -- \b
  else if c = 0x0A then [0x5C, 0x6E]   -- \n
  else if c = 0x0D then [0x5C, 0x72]   -- \r
  else if c = 0x09 then [0x5C, 0x74]   -- \t
  else if 0x20 ≤ c ∧ c ≤ 0x7F then [c]
  else utf16EscapeFor c

/-- `printString`: a quote, the escaped characters, a quote. -/
def printString (s : Msg) : Msg := 0x22 :: (s.flatMap escapeChar) ++ [0x22]

/-- `NumberJSON::print` writes `out << mValue`, the stream's default `double`
formatting.  The spec leaves that form unspecified ("no guaranteed fixed
precision"), and every serializer theorem below excludes Number payloads, so
the embedding only renders integral values (for which the default formatting
is exactly the decimal digits) and falls back to the integral part
otherwise; no theorem depends on this branch. -/
def numberText (q : ℚ) : Msg :=
  if q < 0 then 0x2D :: natToDecimal q.floor.natAbs
  else natToDecimal q.floor.toNat

mutual

/-- The virtual `print` of each node class, i.e. `operator<<` on a JSON
handle, producing text.  Null prints `null`; Bool prints `true`/`false`;
String prints via `printString`; Array prints `[`, the elements separated by
commas, `]`; Object prints `{`, then `"key":value` pairs separated by commas,
`}` (in map iteration order, which is the model's list order). -/
def serValue : JSON → Msg
  | .null => cp "null"
  | .boolean b => if b then cp "true" else cp "false"
  | .number q => numberText q
  | .string s => printString s
  | .array es => 0x5B :: serElems es ++ [0x5D]
  | .object ms => 0x7B :: serMembers ms ++ [0x7D]

/-- `ArrayJSON::print`'s loop: elements joined by commas. -/
def serElems : List JSON → Msg
  | [] => []
  | [e] => serValue e
  | e :: rest => serValue e ++ 0x2C :: serElems rest

/-- `ObjectJSON::print`'s loop: `"key":value` pairs joined by commas. -/
def serMembers : List (Msg × JSON) → Msg
  | [] => []
  | [m] => printString m.1 ++ 0x3A :: serValue m.2
  | m :: rest => printString m.1 ++ 0x3A :: serValue m.2 ++ 0x2C :: serMembers rest

end

/-! ## The parser (parsing routines in JSON.cpp)

The recursive-descent reader is embedded at the code-point level.  The
stream is the list of code points not yet consumed; each reader returns its
result together with the remaining list.  `readChar`/`peekChar` belong to the
Unicode codec collaborator (not in src/): at this level `readChar` takes the
head of the list and `peekChar` looks at it without consuming.  On an
exhausted stream the codec cannot produce a character; per spec §4.2 an
exhausted stream inside a production is a parse error, modelled by `eofMsg`.
-/

/-- `parseError(reason)` in JSON.cpp prefixes the reason. -/
def parseErr (reason : Msg) : Msg := cp "JSON Parse Error: " ++ reason

/-- Modelled from the spec: reading past the end of the stream ("stream
exhausted before closing quote" and similar grammar violations are parse
errors); the exact text comes from the missing Unicode codec / error
collaborators. -/
def eofMsg : Msg := parseErr (cp "Unexpected end of input.")

/-- Embedding artifact, not a message of the program: marks recursion-fuel
exhaustion of the embedded parser.  Every theorem below supplies enough fuel
for this message never to arise. -/
def fuelMsg : Msg := cp "OUT OF FUEL"

/-- `expect(istream&, char32_t)`: read one character and compare. -/
def expectChar (l : List Nat) (c : Nat) : Except Msg (List Nat) :=
  match l with
  | [] => .error eofMsg
  | x :: r =>
      if x = c then .ok r
      else .error (parseErr (cp "Expected " ++ [c] ++ cp ", got " ++ [x]))

/-- `expect(istream&, const string&)`: expect each character in turn. -/
def expectStr : List Nat → Msg → Except Msg (List Nat)
  | l, [] => .ok l
  | l, c :: s =>
      match expectChar l c with
      | .error m => .error m
      | .ok r => expectStr r s

/-- `readNull`: expect the literal `null`. -/
def readNull (l : List Nat) : Except Msg (List Nat) :=
  expectStr l (cp "null")

/-- `readBoolean`: dispatch on `t`/`f`, expect the full literal. -/
def readBoolean : List Nat → Except Msg (Bool × List Nat)
  | [] => .error eofMsg
  | l@(c :: _) =>
      if c = 0x74 then (expectStr l (cp "true")).map (fun r => (true, r))
      else if c = 0x66 then (expectStr l (cp "false")).map (fun r => (false, r))
      else .error (parseErr (cp "Can't parse a boolean starting with " ++ [c]))

/-- `readDigits`: one digit, then—unless that digit was `0`—every following
digit (no leading zeros beyond a single `0`). -/
def readDigits : List Nat → Except Msg (Msg × List Nat)
  | [] => .error eofMsg
  | d :: rest =>
      if ¬ isDigit d then .error (parseErr (cp "Expected a digit, got " ++ [d]))
      else if d = 0x30 then .ok ([d], rest)
      else .ok (d :: rest.takeWhile (fun c => isDigit c),
                rest.dropWhile (fun c => isDigit c))

/-- Value of a digit string. -/
def digitsToNat (ds : Msg) : Nat := ds.foldl (fun a d => 10 * a + (d - 0x30)) 0

/-- `readNumber` = `readInt` + `readFrac` + `readExp`, then conversion of the
assembled text to a number.  The istringstream `>> double` conversion of the
assembled text is modelled as the exact rational value of the decimal
notation; double rounding and overflow (a conversion-failure parse error in
the source for out-of-range exponents) are not modelled, and no claim
exercises them. -/
def readNumber (l : List Nat) : Except Msg (ℚ × List Nat) :=
  -- readInt: optional minus sign, then digits.
  let (neg, l1) : Bool × List Nat :=
    match l with
    | 0x2D :: r => (true, r)
    | _ => (false, l)
  match readDigits l1 with
  | .error m => .error m
  | .ok (ip, l2) =>
    -- readFrac: nothing unless the next character is a dot.
    let fracStep : Except Msg (Msg × List Nat) :=
      match l2 with
      | 0x2E :: r => readDigits r
      | _ => .ok ([], l2)
    match fracStep with
    | .error m => .error m
    | .ok (fp, l3) =>
      -- readExp: nothing unless the next character is e or E.
      let expStep : Except Msg (Bool × Msg × List Nat) :=
        match l3 with
        | c :: r =>
            if c = 0x65 ∨ c = 0x45 then
              match r with
              | 0x2B :: r2 => (readDigits r2).map (fun p => (false, p.1, p.2))
              | 0x2D :: r2 => (readDigits r2).map (fun p => (true, p.1, p.2))
              | _ => (readDigits r).map (fun p => (false, p.1, p.2))
            else .ok (false, [], l3)
        | [] => .ok (false, [], l3)
      match expStep with
      | .error m => .error m
      | .ok (eneg, ed, l4) =>
        -- The exact rational value of the decimal text
        -- (±ip.fp)·10^(±ed), written with core rational construction so
        -- that it evaluates inside the kernel.
        let mantNat : Nat := digitsToNat ip * 10 ^ fp.length + digitsToNat fp
        let mant : Int := if neg then -(mantNat : Int) else (mantNat : Int)
        let eAbs : Nat := digitsToNat ed
        let value : ℚ :=
          if eneg then mkRat mant (10 ^ (fp.length + eAbs))
          else mkRat (mant * (10 : Int) ^ eAbs) (10 ^ fp.length)
        .ok (value, l4)

/-- Value of one hexadecimal digit (both cases accepted). -/
def hexVal (c : Nat) : Option Nat :=
  if 0x30 ≤ c ∧ c ≤ 0x39 then some (c - 0x30)
  else if 0x41 ≤ c ∧ c ≤ 0x46 then some (c - 0x41 + 10)
  else if 0x61 ≤ c ∧ c ≤ 0x66 then some (c - 0x61 + 10)
  else none

/-- Value of the first four characters as a 4-hex-digit group, if they are
hexadecimal digits. -/
def hex4Val (l : List Nat) : Option Nat :=
  match l with
  | a :: b :: c :: d :: _ =>
      match hexVal a, hexVal b, hexVal c, hexVal d with
      | some x, some y, some z, some w => some (((x * 16 + y) * 16 + z) * 16 + w)
      | _, _, _, _ => none
  | _ => none

/-- `readUTF16EscapedChar` — Modelled from the spec: the function lives in
the Unicode codec collaborator (not in src/).  Spec §4.2: a `\uXXXX` escape
is a 4-hex-digit code unit; a high surrogate must be immediately followed by
a second `\uXXXX` low surrogate, and the pair is combined into a single code
point.  The caller has already consumed `\u` (the source ungets and lets the
codec re-read them); this model starts at the first hex digit and reports how
many characters it consumed (4 for a single unit, 10 for a pair).
`readU16LowPart` is the continuation after a high surrogate: it expects the
second escape's `\u` and hex group and combines the pair. -/
def readU16LowPart (n1 : Nat) (l : List Nat) : Except Msg (Nat × Nat) :=
  match l with
  | 0x5C :: 0x75 :: rest2 =>
      match hex4Val rest2 with
      | none => .error (parseErr (cp "Malformed \\u escape."))
      | some n2 =>
          if 0xDC00 ≤ n2 ∧ n2 ≤ 0xDFFF then
            .ok (0x10000 + (n1 - 0xD800) * 0x400 + (n2 - 0xDC00), 10)
          else .error (parseErr (cp "Expected a low surrogate after a high surrogate."))
  | _ => .error (parseErr (cp "Expected a low surrogate after a high surrogate."))

/-- `readUTF16EscapedChar`, continued — Modelled from the spec (see
`readU16LowPart`): dispatch on the first 4-hex-digit group. -/
def readU16Tail (l : List Nat) : Except Msg (Nat × Nat) :=
  match hex4Val l with
  | none => .error (parseErr (cp "Malformed \\u escape."))
  | some n1 =>
    if 0xD800 ≤ n1 ∧ n1 ≤ 0xDBFF then readU16LowPart n1 (l.drop 4)
    else if 0xDC00 ≤ n1 ∧ n1 ≤ 0xDFFF then
      .error (parseErr (cp "Unpaired low surrogate."))
    else .ok (n1, 4)

/-- The character loop of `readString`.  Note two faithfulness points taken
from the source: the validity check (`next < 0x20 || next > 0x10FFFF`) runs
before the close-quote test, and the raw (non-escape) append `result += next`
converts `char32_t` to `char`, i.e. truncates the code point to one byte
(`% 0x100`); for the ASCII range the two agree, and only that range is
exercised by the theorems below.  The accumulator is kept reversed. -/
def readStringLoop : Nat → Msg → List Nat → Except Msg (Msg × List Nat)
  | 0, _, _ => .error fuelMsg
  | f + 1, acc, l =>
    match l with
    | [] => .error eofMsg
    | c :: rest =>
      if c < 0x20 ∨ 0x10FFFF < c then .error (parseErr (cp "Illegal character: " ++ [c]))
      else if c = 0x22 then .ok (acc.reverse, rest)
      else if c ≠ 0x5C then readStringLoop f (c % 0x100 :: acc) rest
      else
        match rest with
        | [] => .error eofMsg
        | e :: rest2 =>
          if e = 0x22 then readStringLoop f (0x22 :: acc) rest2
          else if e = 0x5C then readStringLoop f (0x5C :: acc) rest2
          else if e = 0x2F then readStringLoop f (0x2F :: acc) rest2
          else if e = 0x62 then readStringLoop f (0x08 :: acc) rest2
          else if e = 0x6E then readStringLoop f (0x0A :: acc) rest2
          else if e = 0x72 then readStringLoop f (0x0D :: acc) rest2
          else if e = 0x74 then readStringLoop f (0x09 :: acc) rest2
          else if e = 0x75 then
            match readU16Tail rest2 with
            | .error m => .error m
            | .ok (ch, n) => readStringLoop f (ch :: acc) (rest2.drop n)
          else .error (parseErr (cp "Unknown escape sequence: \\" ++ [e]))

/-- `readString`: an opening quote, then the character loop.  Every loop
iteration consumes at least one character, so `length + 1` fuel always
suffices. -/
def readString (l : List Nat) : Except Msg (Msg × List Nat) :=
  match expectChar l 0x22 with
  | .error m => .error m
  | .ok r => readStringLoop (r.length + 1) [] r

/-- The mutual recursion structure of the remaining parsing routines.  Each
constructor is one of the routines in JSON.cpp; the two loop modes carry the
elements accumulated so far by the `while (true)` loops of `readArray` /
`readObject` (for the object, the `unordered_map` built by `insert`, in
insertion order). -/
inductive PMode where
  | element
  | value
  | objectM
  | arrayM
  | membersLoop (acc : List (Msg × JSON))
  | elemsLoop (acc : List JSON)

/-- One step function for the mutually recursive routines `readElement`,
`readValue`, `readObject`, `readArray` and their loops, structurally
recursive on fuel so that it evaluates in the kernel.  Comments map each
branch to the source function. -/
def run : Nat → PMode → List Nat → Except Msg (JSON × List Nat)
  | 0, _, _ => .error fuelMsg
  | f + 1, m, l =>
    match m with
    | .element =>
      -- readElement: input >> ws; readValue; input >> ws.
      match run f .value (dropWs l) with
      | .ok (v, r) => .ok (v, dropWs r)
      | .error m => .error m
    | .value =>
      -- readValue: dispatch on one peeked character.
      match l with
      | [] => .error (parseErr (cp "Not sure how to handle value at end of stream."))
      | c :: _ =>
        if c = 0x7B then run f .objectM l
        else if c = 0x5B then run f .arrayM l
        else if c = 0x22 then
          match readString l with
          | .error m => .error m
          | .ok (s, r) => .ok (.string s, r)
        else if c = 0x2D ∨ isDigit c then
          match readNumber l with
          | .error m => .error m
          | .ok (q, r) => .ok (.number q, r)
        else if c = 0x74 ∨ c = 0x66 then
          match readBoolean l with
          | .error m => .error m
          | .ok (b, r) => .ok (.boolean b, r)
        else if c = 0x6E then
          match readNull l with
          | .error m => .error m
          | .ok r => .ok (.null, r)
        else .error (parseErr (cp "Not sure how to handle value starting with character " ++ [c]))
    | .objectM =>
      -- readObject: expect '{'; empty-object special case peeks '}'.
      match expectChar l 0x7B with
      | .error m => .error m
      | .ok r =>
        match r with
        | 0x7D :: r2 => .ok (.object [], r2)
        | _ => run f (.membersLoop []) r
    | .membersLoop acc =>
      -- readObject's while(true) body: readMember (ws, string key, ws, ':',
      -- element), then insert with duplicate check, then ',' or '}'.
      match readString (dropWs l) with
      | .error m => .error m
      | .ok (key, l2) =>
        match expectChar (dropWs l2) 0x3A with
        | .error m => .error m
        | .ok l3 =>
          match run f .element l3 with
          | .error m => .error m
          | .ok (v, l4) =>
            if objContains acc key then .error (parseErr (cp "Duplicate key: " ++ key))
            else
              match l4 with
              | [] => .error eofMsg
              | c :: l5 =>
                if c = 0x7D then .ok (.object (acc ++ [(key, v)]), l5)
                else if c = 0x2C then run f (.membersLoop (acc ++ [(key, v)])) l5
                else .error (parseErr (cp "Expected , or \x7d, got " ++ [c]))
    | .arrayM =>
      -- readArray: expect '['; empty-array special case peeks ']'.
      match expectChar l 0x5B with
      | .error m => .error m
      | .ok r =>
        match r with
        | 0x5D :: r2 => .ok (.array [], r2)
        | _ => run f (.elemsLoop []) r
    | .elemsLoop acc =>
      -- readArray's while(true) body: readElement, then ',' or ']'.
      match run f .element l with
      | .error m => .error m
      | .ok (v, l2) =>
        match l2 with
        | [] => .error eofMsg
        | c :: l3 =>
          if c = 0x5D then .ok (.array (acc ++ [v]), l3)
          else if c = 0x2C then run f (.elemsLoop (acc ++ [v])) l3
          else .error (parseErr (cp "Expected , or ], got " ++ [c]))

/-- `JSON::parse`: read one element, then confirm nothing but whitespace
remains (`input >> leftover` skips whitespace, but `readElement` has already
consumed trailing whitespace, so any remaining character is the leftover).
The fuel `4 * length + 8` is an embedding artifact; the lemma
`need_le_fuel` below shows it suffices for every parse the round-trip
theorem performs. -/
def JSON.parse (l : List Nat) : Except Msg JSON :=
  match run (4 * l.length + 8) .element l with
  | .error m => .error m
  | .ok (v, rest) =>
    match rest with
    | [] => .ok v
    | c :: _ => .error (parseErr (cp "Unexpected character found at end of stream: " ++ [c]))

/-! ## The CSV reader (CSV.h / CSV.cpp)

The constructor reads the source line by line (`getline`), so the embedding
takes the input as the list of its lines, each line a list of code points
(CSV.cpp never treats bytes beyond comparing them to ASCII delimiters).
`error(msg)` is again the fatal-error collaborator, embedded as `Except`.
-/

/-- The quoted-string loop of `readOneTokenFrom`: read characters, treating
`""` as an escaped quote; a quote followed by end-of-line or a comma ends the
token (the comma stays unconsumed); a quote followed by anything else is a
fatal error; end-of-line inside the quotes is the unterminated-literal
error. -/
def quotedTok : List Nat → Except Msg (Msg × List Nat)
  | [] => .error (cp "Unterminated string literal.")
  | c :: rest =>
      -- The source tests `ch != '"'` first; the branches are swapped here
      -- so that the recursion sits in the else-branch, same semantics.
      if c = 0x22 then
        match rest with
        | [] => .ok ([], [])
        | n :: rest2 =>
            if n = 0x2C then .ok ([], rest)
            else if n = 0x22 then
              match quotedTok rest2 with
              | .error m => .error m
              | .ok (tok, r) => .ok (0x22 :: tok, r)
            else .error (cp "Unexpected character found after quote.")
      else
        match quotedTok rest with
        | .error m => .error m
        | .ok (tok, r) => .ok (c :: tok, r)

/-- `readOneTokenFrom`: an empty entry before a comma; an unquoted token up
to the next comma or end of line; or a quoted token. -/
def readOneTokenFrom (l : List Nat) : Except Msg (Msg × List Nat) :=
  match l with
  | 0x2C :: _ => .ok ([], l)
  | 0x22 :: rest => quotedTok rest
  | _ => .ok (l.takeWhile (fun c => c ≠ 0x2C), l.dropWhile (fun c => c ≠ 0x2C))

/-- The loop of `tokenize`: one token, then either end of line or a comma. -/
def tokenizeLoop : Nat → List Msg → List Nat → Except Msg (List Msg)
  | 0, _, _ => .error fuelMsg
  | f + 1, acc, l =>
      match readOneTokenFrom l with
      | .error m => .error m
      | .ok (tok, rest) =>
          match rest with
          | [] => .ok (acc ++ [tok])
          | c :: rest2 =>
              if c = 0x2C then tokenizeLoop f (acc ++ [tok]) rest2
              else .error (cp "Entries in CSV file aren't comma-separated?")

/-- `tokenize`: empty lines are a fatal error; otherwise run the loop.  Every
continuing iteration consumes the separating comma, so `length + 1` fuel
always suffices. -/
def tokenize (line : List Nat) : Except Msg (List Msg) :=
  if line.isEmpty then .error (cp "Empty line in CSV file.")
  else tokenizeLoop (line.length + 1) [] line

/-- The header-insertion loop of `readHeaders`: a `LinkedHashMap<string,int>`
keeps keys in insertion order with the value equal to the size at insertion,
so it is embedded as the ordered list of headers (a header's index is its
position). -/
def addHeaders : List Msg → List Msg → Except Msg (List Msg)
  | acc, [] => .ok acc
  | acc, t :: ts =>
      if acc.contains t then .error (cp "Duplicate column header: " ++ t)
      else addHeaders (acc ++ [t]) ts

/-- `readHeaders`: the first line, tokenized, with the duplicate check. -/
def readHeaders : List (List Nat) → Except Msg (List Msg × List (List Nat))
  | [] => .error (cp "Could not read header row from CSV source.")
  | line :: rest =>
      match tokenize line with
      | .error m => .error m
      | .ok toks =>
          match addHeaders [] toks with
          | .error m => .error m
          | .ok hs => .ok (hs, rest)

/-- `readBody`: tokenize each remaining line, insisting on the header's
column count.  (The final `Grid` flattening copies the same tokens over; the
embedding keeps the row list.) -/
def readBody (numCols : Nat) : List (List Nat) → Except Msg (List (List Msg))
  | [] => .ok []
  | line :: rest =>
      match tokenize line with
      | .error m => .error m
      | .ok toks =>
          if toks.length ≠ numCols then .error (cp "Lines have varying number of entries.")
          else
            match readBody numCols rest with
            | .error m => .error m
            | .ok rows => .ok (toks :: rows)

/-- The data held by a constructed CSV object: `mColumnHeaders` (ordered) and
`mData`. -/
structure CSVData where
  headers : List Msg
  rows : List (List Msg)

/-- `CSV::CSV(istream&)`: headers first, then the body with the header's
column count. -/
def CSV.make (lines : List (List Nat)) : Except Msg CSVData :=
  match readHeaders lines with
  | .error m => .error m
  | .ok (hs, rest) =>
      match readBody hs.length rest with
      | .error m => .error m
      | .ok rows => .ok ⟨hs, rows⟩

/-! ## Auxiliary predicates used by the theorems -/

/-- Boolean no-duplicates check on a list of strings. -/
def nodupB : List Msg → Bool
  | [] => true
  | k :: ks => (!ks.contains k) && nodupB ks

/-- A Unicode scalar value: at most 0x10FFFF and not a surrogate.  These are
exactly the code points decoded text can contain (spec: a String stores "a
sequence of Unicode code points ... escape sequences already resolved"). -/
def scalarOk (c : Nat) : Bool :=
  decide (c ≤ 0x10FFFF) && !(decide (0xD800 ≤ c) && decide (c ≤ 0xDFFF))

mutual

/-- The "built from literals, no Number payloads" trees of the round-trip
claim: no Number node anywhere, every string payload and object key a
sequence of Unicode scalar values, and (as the `unordered_map` constructor
guarantees) no duplicate keys within an object node. -/
def litTree : JSON → Bool
  | .null => true
  | .boolean _ => true
  | .number _ => false
  | .string s => s.all scalarOk
  | .array es => litTreeL es
  | .object ms => nodupB (ms.map Prod.fst) && litTreeM ms

/-- `litTree` over an array's element list. -/
def litTreeL : List JSON → Bool
  | [] => true
  | e :: rest => litTree e && litTreeL rest

/-- `litTree` over an object's member list. -/
def litTreeM : List (Msg × JSON) → Bool
  | [] => true
  | m :: rest => m.1.all scalarOk && litTree m.2 && litTreeM rest

end

mutual

/-- Every object node in the tree has pairwise-distinct keys. -/
def nodupKeys : JSON → Bool
  | .null => true
  | .boolean _ => true
  | .number _ => true
  | .string _ => true
  | .array es => nodupKeysL es
  | .object ms => nodupB (ms.map Prod.fst) && nodupKeysM ms

/-- `nodupKeys` over an array's element list. -/
def nodupKeysL : List JSON → Bool
  | [] => true
  | e :: rest => nodupKeys e && nodupKeysL rest

/-- `nodupKeys` over an object's member list. -/
def nodupKeysM : List (Msg × JSON) → Bool
  | [] => true
  | m :: rest => nodupKeys m.2 && nodupKeysM rest

end

mutual

/-- Fuel requirement of the embedded parser on serialized output; see the
round-trip lemmas. -/
def needV : JSON → Nat
  | .array es => 2 + needL es
  | .object ms => 2 + needM ms
  | _ => 1

/-- Fuel requirement for an array's serialized element list. -/
def needL : List JSON → Nat
  | [] => 0
  | e :: rest => 2 + needV e + needL rest

/-- Fuel requirement for an object's serialized member list. -/
def needM : List (Msg × JSON) → Nat
  | [] => 0
  | m :: rest => 2 + needV m.2 + needM rest

end

/-! ## Shared lemmas -/

/-- Nested induction principle for `JSON` trees. -/
def JSON.indNested {P : JSON → Prop}
    (hnull : P .null) (hbool : ∀ b, P (.boolean b)) (hnum : ∀ q, P (.number q))
    (hstr : ∀ s, P (.string s))
    (harr : ∀ es, (∀ e ∈ es, P e) → P (.array es))
    (hobj : ∀ ms, (∀ m ∈ ms, P m.2) → P (.object ms)) : ∀ v, P v
  | .null => hnull
  | .boolean b => hbool b
  | .number q => hnum q
  | .string s => hstr s
  | .array es => harr es (fun e he =>
      JSON.indNested hnull hbool hnum hstr harr hobj e)
  | .object ms => hobj ms (fun m hm =>
      JSON.indNested hnull hbool hnum hstr harr hobj m.2)
termination_by v => sizeOf v
decreasing_by
  all_goals first
  | (have h9 := List.sizeOf_lt_of_mem he; simp only [JSON.array.sizeOf_spec]; omega)
  | (have h1 := List.sizeOf_lt_of_mem hm
     obtain ⟨a, b⟩ := m
     simp only [JSON.object.sizeOf_spec, Prod.mk.sizeOf_spec] at *
     omega)

theorem nodupB_iff (l : List Msg) : nodupB l = true ↔ l.Nodup := by
  induction l with
  | nil => simp [nodupB]
  | cons k ks ih =>
      simp [nodupB, ih, List.contains, List.elem_iff]

theorem msg_head_ne {a b : Msg} (h : a.head? ≠ b.head?) : a ≠ b :=
  fun e => h (by rw [e])

/-! ## Claim C2: type() and the narrowing accessors -/

/-- C2: `type()` returns the variant tag of every Value and is total; each of
`asNull` / `asBoolean` / `asNumber` / `asString` returns the payload when the
variant matches, and otherwise fails with the TypeMismatch message naming the
actual variant's node class and the requested node class. -/
theorem C2_type_and_accessors (v : JSON) :
    (v = .null → v.jtype = .NULLPTR_T ∧ v.asNull = .ok ())
  ∧ (∀ b, v = .boolean b → v.jtype = .BOOLEAN ∧ v.asBoolean = .ok b)
  ∧ (∀ q, v = .number q → v.jtype = .NUMBER ∧ v.asNumber = .ok q)
  ∧ (∀ s, v = .string s → v.jtype = .STRING ∧ v.asString = .ok s)
  ∧ (v.jtype ≠ .NULLPTR_T → v.asNull = .error (mismatchMsg (typeName v) (cp "NullJSON")))
  ∧ (v.jtype ≠ .BOOLEAN → v.asBoolean = .error (mismatchMsg (typeName v) (cp "BoolJSON")))
  ∧ (v.jtype ≠ .NUMBER → v.asNumber = .error (mismatchMsg (typeName v) (cp "NumberJSON")))
  ∧ (v.jtype ≠ .STRING → v.asString = .error (mismatchMsg (typeName v) (cp "StringJSON"))) := by
  cases v <;>
    simp [JSON.jtype, JSON.asNull, JSON.asBoolean, JSON.asNumber, JSON.asString]

/-- Witness for C2 at concrete Values. -/
theorem C2_witness :
    ((JSON.boolean true).jtype = .BOOLEAN ∧ (JSON.boolean true).asBoolean = .ok true)
  ∧ (JSON.boolean true).asString =
      .error (mismatchMsg (typeName (.boolean true)) (cp "StringJSON")) :=
  ⟨(C2_type_and_accessors (.boolean true)).2.1 true rfl,
   (C2_type_and_accessors (.boolean true)).2.2.2.2.2.2.2 (by decide)⟩

/-! ## Claim C4: indexed access -/

/-- C4: on an Array, in-range indexed access returns the i-th element in
stored order; an out-of-range index fails with the IndexOutOfRange message
reporting the index and the size; a non-Array Value fails with TypeMismatch. -/
theorem C4_indexed_access (v : JSON) (i : Nat) :
    (∀ es, v = .array es → ∀ h : i < es.length, v.getIdx i = .ok (es.get ⟨i, h⟩))
  ∧ (∀ es, v = .array es → es.length ≤ i →
       v.getIdx i = .error (cp "Index out of range: " ++ natToDecimal i ++
                            cp ", but size is " ++ natToDecimal es.length))
  ∧ (v.jtype ≠ .ARRAY → v.getIdx i = .error (mismatchMsg (typeName v) (cp "ArrayJSON"))) := by
  refine ⟨?_, ?_, ?_⟩
  · rintro es rfl h
    simp [JSON.getIdx, arrayGet, Nat.not_le.mpr h]
  · rintro es rfl h
    simp [JSON.getIdx, arrayGet, h]
  · intro h
    cases v <;> simp_all [JSON.jtype, JSON.getIdx]

/-- Witness for C4 at concrete Values. -/
theorem C4_witness :
    (JSON.array [.null, .boolean true]).getIdx 1 = .ok (.boolean true)
  ∧ (JSON.array [.null]).getIdx 3 =
      .error (cp "Index out of range: " ++ natToDecimal 3 ++
              cp ", but size is " ++ natToDecimal 1)
  ∧ (JSON.string (cp "x")).getIdx 0 =
      .error (mismatchMsg (typeName (.string (cp "x"))) (cp "ArrayJSON")) :=
  ⟨(C4_indexed_access (.array [.null, .boolean true]) 1).1 _ rfl (by simp),
   (C4_indexed_access (.array [.null]) 3).2.1 _ rfl (by simp),
   (C4_indexed_access (.string (cp "x")) 0).2.2 (by decide)⟩

/-! ## Claim C9: iterator equality -/

/-- C9: two default-constructed (null) iterators are equal; a null iterator
equals a non-null one exactly when the latter's cursor is finished; two
non-null iterators are compared by cursor object identity alone, so two
distinct cursors compare unequal even when both are finished. -/
theorem C9_iterator_equality :
    (iterEq iterEnd iterEnd = true)
  ∧ (∀ a s, iterEq iterEnd ⟨some (a, s)⟩ = s.finished
          ∧ iterEq ⟨some (a, s)⟩ iterEnd = s.finished)
  ∧ (∀ a s b t, iterEq ⟨some (a, s)⟩ ⟨some (b, t)⟩ = (a == b))
  ∧ (∀ a s b t, a ≠ b → s.finished = true → t.finished = true →
       iterEq ⟨some (a, s)⟩ ⟨some (b, t)⟩ = false) := by
  refine ⟨rfl, fun a s => ⟨rfl, rfl⟩, fun a s b t => rfl, fun a s b t hab _ _ => ?_⟩
  simp [iterEq, hab]

/-- Witness for C9: two distinct finished cursors over the same (empty
remainder) container compare unequal. -/
theorem C9_witness :
    iterEq ⟨some (0, .vec [])⟩ ⟨some (1, .vec [])⟩ = false :=
  C9_iterator_equality.2.2.2 0 (.vec []) 1 (.vec []) (by decide) rfl rfl

/-! ## Claim C10: generic keyed access with a Number key -/

theorem mismatch_head (a t : Msg) : (mismatchMsg a t).head? = some 87 := rfl

theorem idxErr_head (i n : Nat) :
    (cp "Index out of range: " ++ natToDecimal i ++
     cp ", but size is " ++ natToDecimal n).head? = some 73 := rfl

theorem keyErr_head (k : Msg) :
    (cp "Key " ++ k ++ cp " does not exist.").head? = some 75 := rfl

/-- The `size_t` overload can fail only with a TypeMismatch or
IndexOutOfRange message, never with the invalid-key message. -/
theorem getIdx_not_invalid (v : JSON) (i : Nat) :
    v.getIdx i ≠ .error (cp "Cannot use this JSON object as a key.") := by
  intro h
  cases v with
  | array es =>
      simp only [JSON.getIdx] at h
      unfold arrayGet at h
      split at h
      · injection h with h2
        have h3 := congrArg List.head? h2
        rw [idxErr_head] at h3
        exact absurd h3 (by decide)
      · exact Except.noConfusion h
  | null =>
      simp only [JSON.getIdx] at h
      injection h with h2
      have h3 := congrArg List.head? h2
      rw [mismatch_head] at h3
      exact absurd h3 (by decide)
  | boolean b =>
      simp only [JSON.getIdx] at h
      injection h with h2
      have h3 := congrArg List.head? h2
      rw [mismatch_head] at h3
      exact absurd h3 (by decide)
  | number q =>
      simp only [JSON.getIdx] at h
      injection h with h2
      have h3 := congrArg List.head? h2
      rw [mismatch_head] at h3
      exact absurd h3 (by decide)
  | string s =>
      simp only [JSON.getIdx] at h
      injection h with h2
      have h3 := congrArg List.head? h2
      rw [mismatch_head] at h3
      exact absurd h3 (by decide)
  | object ms =>
      simp only [JSON.getIdx] at h
      injection h with h2
      have h3 := congrArg List.head? h2
      rw [mismatch_head] at h3
      exact absurd h3 (by decide)

/-- The string overload can fail only with a TypeMismatch or KeyNotFound
message, never with the invalid-key message. -/
theorem getKey_not_invalid (v : JSON) (k : Msg) :
    v.getKey k ≠ .error (cp "Cannot use this JSON object as a key.") := by
  intro h
  cases v with
  | object ms =>
      simp only [JSON.getKey] at h
      unfold objectGet at h
      split at h
      · exact Except.noConfusion h
      · injection h with h2
        have h3 := congrArg List.head? h2
        rw [keyErr_head] at h3
        exact absurd h3 (by decide)
  | null =>
      simp only [JSON.getKey] at h
      injection h with h2
      have h3 := congrArg List.head? h2
      rw [mismatch_head] at h3
      exact absurd h3 (by decide)
  | boolean b =>
      simp only [JSON.getKey] at h
      injection h with h2
      have h3 := congrArg List.head? h2
      rw [mismatch_head] at h3
      exact absurd h3 (by decide)
  | number q =>
      simp only [JSON.getKey] at h
      injection h with h2
      have h3 := congrArg List.head? h2
      rw [mismatch_head] at h3
      exact absurd h3 (by decide)
  | string s =>
      simp only [JSON.getKey] at h
      injection h with h2
      have h3 := congrArg List.head? h2
      rw [mismatch_head] at h3
      exact absurd h3 (by decide)
  | array es =>
      simp only [JSON.getKey] at h
      injection h with h2
      have h3 := congrArg List.head? h2
      rw [mismatch_head] at h3
      exact absurd h3 (by decide)

/-- C10: the generic keyed access converts a non-negative Number key to an
index by truncation toward zero and uses the indexed access; in particular
the key 2.9 on an array of size at least 3 returns element 2; and exactly the
keys whose variant is neither Number nor String produce the InvalidKeyType
error. -/
theorem C10_generic_keyed_access (v : JSON) :
    (∀ es q, v = .array es → 0 ≤ q → ∀ h : doubleToSizeT q < es.length,
       v.getGeneric (.number q) = .ok (es.get ⟨doubleToSizeT q, h⟩))
  ∧ (∀ es, v = .array es → ∀ h : 2 < es.length,
       v.getGeneric (.number (mkRat 29 10)) = .ok (es.get ⟨2, h⟩))
  ∧ (∀ k, k.jtype ≠ .NUMBER → k.jtype ≠ .STRING →
       v.getGeneric k = .error (cp "Cannot use this JSON object as a key."))
  ∧ (∀ k, v.getGeneric k = .error (cp "Cannot use this JSON object as a key.") →
       k.jtype ≠ .NUMBER ∧ k.jtype ≠ .STRING) := by
  refine ⟨?_, ?_, ?_, ?_⟩
  · rintro es q rfl _ h
    simp [JSON.getGeneric, JSON.getIdx, arrayGet, Nat.not_le.mpr h]
  · rintro es rfl h
    have e : doubleToSizeT (mkRat 29 10) = 2 := by decide
    have h2 : doubleToSizeT (mkRat 29 10) < es.length := by rw [e]; exact h
    simp only [JSON.getGeneric, JSON.getIdx]
    unfold arrayGet
    rw [dif_neg (Nat.not_le.mpr h2)]
    rw [show (⟨doubleToSizeT (mkRat 29 10), by omega⟩ : Fin es.length) = ⟨2, h⟩ from
        Fin.ext e]
  · intro k h1 h2
    cases k <;> simp_all [JSON.jtype, JSON.getGeneric]
  · intro k h
    cases k with
    | number q => exact absurd h (getIdx_not_invalid v (doubleToSizeT q))
    | string s => exact absurd h (getKey_not_invalid v s)
    | null => exact ⟨by simp [JSON.jtype], by simp [JSON.jtype]⟩
    | boolean b => exact ⟨by simp [JSON.jtype], by simp [JSON.jtype]⟩
    | array es => exact ⟨by simp [JSON.jtype], by simp [JSON.jtype]⟩
    | object ms => exact ⟨by simp [JSON.jtype], by simp [JSON.jtype]⟩

/-- Witness for C10 at concrete Values: key 2.9 on a 3-element array returns
element 2, and a Null key is an invalid key. -/
theorem C10_witness :
    (JSON.array [.null, .boolean true, .string (cp "z")]).getGeneric
        (.number (mkRat 29 10)) = .ok (.string (cp "z"))
  ∧ (JSON.array [.null]).getGeneric .null =
      .error (cp "Cannot use this JSON object as a key.") := by
  constructor
  · have := (C10_generic_keyed_access
        (.array [.null, .boolean true, .string (cp "z")])).2.1
        [.null, .boolean true, .string (cp "z")] rfl (by simp)
    simpa using this
  · exact (C10_generic_keyed_access (.array [.null])).2.2.1 .null
      (by simp [JSON.jtype]) (by simp [JSON.jtype])

/-! ## Claim C5: object iteration yields the keys -/

/-- Draining a map source yields a String value per key, in order. -/
theorem drain_map_keys :
    ∀ (ms : List (Msg × JSON)) (s : JSON),
      JSONSource.drain ms.length
        (.map ms (match ms with | [] => s | m :: _ => JSON.string m.1))
      = ms.map (fun m => JSON.string m.1) := by
  intro ms
  induction ms with
  | nil => intro s; rfl
  | cons m rest ih =>
      intro s
      show JSONSource.drain (rest.length + 1) (.map (m :: rest) (.string m.1)) = _
      rw [JSONSource.drain]
      simp only [JSONSource.finished, JSONSource.current, JSONSource.advance,
                 List.isEmpty_cons, List.tail_cons, List.map_cons]
      rw [if_neg (by simp)]
      exact congrArg (JSON.string m.1 :: ·) (ih (.string m.1))

/-- C5: iterating an Object from `begin()` yields exactly `size()` Values,
one fresh String Value per key in traversal order (never the mapped values),
with all keys distinct when the object's keys are distinct; requesting a
sequence from a non-Array, non-Object Value fails with TypeMismatch. -/
theorem C5_object_iteration (v : JSON) :
    (∀ ms, v = .object ms →
        v.beginSource = .ok (mkMapSource ms)
      ∧ JSONSource.drain ms.length (mkMapSource ms) = ms.map (fun m => JSON.string m.1)
      ∧ v.jsize = .ok ms.length
      ∧ (ms.map (fun m => JSON.string m.1)).length = ms.length
      ∧ ((ms.map Prod.fst).Nodup → (ms.map (fun m => JSON.string m.1)).Nodup))
  ∧ (v.jtype ≠ .ARRAY → v.jtype ≠ .OBJECT →
       v.beginSource = .error (mismatchMsg (typeName v) (cp "IterableJSON"))) := by
  constructor
  · rintro ms rfl
    refine ⟨rfl, ?_, rfl, by simp, ?_⟩
    · show JSONSource.drain ms.length (mkMapSource ms) = _
      unfold mkMapSource
      exact drain_map_keys ms .null
    · intro hnd
      have e : ms.map (fun m => JSON.string m.1) = (ms.map Prod.fst).map JSON.string := by
        simp [List.map_map]
      rw [e]
      exact hnd.map (fun a b hab => JSON.string.inj hab)
  · intro h1 h2
    cases v <;> simp_all [JSON.jtype, JSON.beginSource]

/-- Witness for C5 at a concrete Object and a concrete String Value. -/
theorem C5_witness :
    JSONSource.drain 2 (mkMapSource [(cp "a", .null), (cp "b", .boolean true)])
      = [.string (cp "a"), .string (cp "b")]
  ∧ (JSON.number (mkRat 1 1)).beginSource =
      .error (mismatchMsg (typeName (.number (mkRat 1 1))) (cp "IterableJSON")) :=
  ⟨((C5_object_iteration (.object [(cp "a", .null), (cp "b", .boolean true)])).1
      _ rfl).2.1,
   (C5_object_iteration (.number (mkRat 1 1))).2
      (by simp [JSON.jtype]) (by simp [JSON.jtype])⟩

/-! ## Claim C6: string escaping in the serializer -/

/-- C6 counterexample: DEL (0x7F) lies outside printable ASCII
(0x20–0x7E), so the claim requires it to be emitted as a `\uXXXX` escape;
`printString` passes every code point in 0x20–0x7F through raw, so the
serialized form of the one-character string U+007F is `"<DEL>"`, not
`"\u007F"`. -/
theorem C6_counterexample :
    serValue (.string [0x7F]) = [0x22, 0x7F, 0x22]
  ∧ serValue (.string [0x7F]) ≠ 0x22 :: utf16EscapeFor 0x7F ++ [0x22] := by
  constructor
  · rfl
  · decide

/-- C6 (amended): the seven characters `"` `\` `/` backspace newline carriage
return tab are emitted as their two-character escapes; every other code point
in the range 0x20–0x7F (printable ASCII plus DEL) passes through unescaped;
and every code point below 0x20 or above 0x7F is emitted as a `\uXXXX`
escape, as a surrogate pair when the code point exceeds 0xFFFF. -/
theorem C6_string_escaping (c : Nat) :
    (c = 0x22 → escapeChar c = [0x5C, 0x22])
  ∧ (c = 0x5C → escapeChar c = [0x5C, 0x5C])
  ∧ (c = 0x2F → escapeChar c = [0x5C, 0x2F])
  ∧ (c = 0x08 → escapeChar c = [0x5C, 0x62])
  ∧ (c = 0x0A → escapeChar c = [0x5C, 0x6E])
  ∧ (c = 0x0D → escapeChar c = [0x5C, 0x72])
  ∧ (c = 0x09 → escapeChar c = [0x5C, 0x74])
  ∧ (0x20 ≤ c → c ≤ 0x7F → c ≠ 0x22 → c ≠ 0x5C → c ≠ 0x2F → escapeChar c = [c])
  ∧ (c < 0x20 → c ≠ 0x08 → c ≠ 0x0A → c ≠ 0x0D → c ≠ 0x09 →
       escapeChar c = utf16EscapeFor c)
  ∧ (0x7F < c → escapeChar c = utf16EscapeFor c)
  ∧ (c ≤ 0xFFFF → utf16EscapeFor c = 0x5C :: 0x75 :: toHex4 c)
  ∧ (0xFFFF < c → utf16EscapeFor c =
       (0x5C :: 0x75 :: toHex4 (0xD800 + (c - 0x10000) / 0x400)) ++
       (0x5C :: 0x75 :: toHex4 (0xDC00 + (c - 0x10000) % 0x400)))
  ∧ (∀ s, serValue (.string s) = 0x22 :: s.flatMap escapeChar ++ [0x22]) := by
  refine ⟨?_, ?_, ?_, ?_, ?_, ?_, ?_, ?_, ?_, ?_, ?_, ?_, ?_⟩
  · rintro rfl; rfl
  · rintro rfl; rfl
  · rintro rfl; rfl
  · rintro rfl; rfl
  · rintro rfl; rfl
  · rintro rfl; rfl
  · rintro rfl; rfl
  · intro h1 h2 h3 h4 h5
    have e8 : c ≠ 0x08 := by omega
    have eA : c ≠ 0x0A := by omega
    have eD : c ≠ 0x0D := by omega
    have e9 : c ≠ 0x09 := by omega
    simp [escapeChar, h3, h4, h5, e8, eA, eD, e9, h1, h2]
  · intro h1 h2 h3 h4 h5
    have e22 : c ≠ 0x22 := by omega
    have e5C : c ≠ 0x5C := by omega
    have e2F : c ≠ 0x2F := by omega
    have hr : ¬(0x20 ≤ c ∧ c ≤ 0x7F) := by omega
    simp [escapeChar, e22, e5C, e2F, h2, h3, h4, h5, hr]
  · intro h1
    have e22 : c ≠ 0x22 := by omega
    have e5C : c ≠ 0x5C := by omega
    have e2F : c ≠ 0x2F := by omega
    have e8 : c ≠ 0x08 := by omega
    have eA : c ≠ 0x0A := by omega
    have eD : c ≠ 0x0D := by omega
    have e9 : c ≠ 0x09 := by omega
    have hr : ¬(0x20 ≤ c ∧ c ≤ 0x7F) := by omega
    simp [escapeChar, e22, e5C, e2F, e8, eA, eD, e9, hr]
  · intro h1
    simp [utf16EscapeFor, h1]
  · intro h1
    rw [utf16EscapeFor, if_neg (by omega)]
  · intro s; rfl

/-- Witness for C6 at concrete code points: `é` (U+00E9) becomes `é`,
`A` passes through, the G-clef (U+1D11E) becomes a surrogate pair. -/
theorem C6_witness :
    escapeChar 0xE9 = utf16EscapeFor 0xE9
  ∧ escapeChar 0x41 = [0x41]
  ∧ utf16EscapeFor 0x1D11E =
      (0x5C :: 0x75 :: toHex4 (0xD800 + (0x1D11E - 0x10000) / 0x400)) ++
      (0x5C :: 0x75 :: toHex4 (0xDC00 + (0x1D11E - 0x10000) % 0x400)) :=
  ⟨(C6_string_escaping 0xE9).2.2.2.2.2.2.2.2.2.1 (by omega),
   (C6_string_escaping 0x41).2.2.2.2.2.2.2.1 (by omega) (by omega)
     (by omega) (by omega) (by omega),
   (C6_string_escaping 0x1D11E).2.2.2.2.2.2.2.2.2.2.2.1 (by omega)⟩

/-! ## Claim C8: CSV failure modes -/

/-- A successful `readBody` means every line tokenized to exactly the
header's column count. -/
theorem readBody_ok :
    ∀ (lines : List (List Nat)) (n : Nat) rows, readBody n lines = .ok rows →
      ∀ line ∈ lines, ∃ toks, tokenize line = .ok toks ∧ toks.length = n := by
  intro lines
  induction lines with
  | nil => intro n rows _ line hline; exact absurd hline (List.not_mem_nil line)
  | cons l ls ih =>
      intro n rows h line hline
      rw [readBody] at h
      cases htok : tokenize l with
      | error m => rw [htok] at h; exact Except.noConfusion h
      | ok toks =>
          rw [htok] at h
          dsimp only at h
          by_cases hlen : toks.length ≠ n
          · rw [if_pos hlen] at h; exact Except.noConfusion h
          · rw [if_neg hlen] at h
            rcases List.mem_cons.mp hline with rfl | hmem
            · exact ⟨toks, htok, not_not.mp hlen⟩
            · cases hrec : readBody n ls with
              | error m => rw [hrec] at h; exact Except.noConfusion h
              | ok rows2 => exact ih n rows2 hrec line hmem

/-- A successful header-insertion loop keeps the headers duplicate-free. -/
theorem addHeaders_ok :
    ∀ (toks acc hs : List Msg), addHeaders acc toks = .ok hs →
      nodupB acc = true → nodupB hs = true := by
  intro toks
  induction toks with
  | nil => intro acc hs h hacc; rw [addHeaders] at h; cases h; exact hacc
  | cons t ts ih =>
      intro acc hs h hacc
      rw [addHeaders] at h
      split at h
      · exact Except.noConfusion h
      · refine ih (acc ++ [t]) hs h ?_
        rw [nodupB_iff] at hacc ⊢
        rename_i hc
        have : ¬ t ∈ acc := by
          intro hm
          exact hc (by simpa [List.contains, List.elem_iff] using hm)
        simp [List.nodup_append, hacc, this]

/-- A duplicate among the remaining headers makes the insertion loop fail
with a message naming a header that occurs at least twice. -/
theorem addHeaders_dup :
    ∀ (toks acc : List Msg), nodupB acc = true → nodupB (acc ++ toks) = false →
      ∃ t, 2 ≤ (acc ++ toks).count t ∧
        addHeaders acc toks = .error (cp "Duplicate column header: " ++ t) := by
  intro toks
  induction toks with
  | nil =>
      intro acc h1 h2
      rw [List.append_nil] at h2
      rw [h1] at h2
      exact Bool.noConfusion h2
  | cons t ts ih =>
      intro acc h1 h2
      by_cases hc : acc.contains t = true
      · refine ⟨t, ?_, by rw [addHeaders, if_pos hc]⟩
        have hmem : t ∈ acc := by simpa [List.contains, List.elem_iff] using hc
        have c1 : 1 ≤ acc.count t := List.count_pos_iff.mpr hmem
        have c2 : 1 ≤ (t :: ts).count t := by simp [List.count_cons]
        rw [List.count_append]
        omega
      · have hnm : ¬ t ∈ acc := by
          intro hm
          exact hc (by simpa [List.contains, List.elem_iff] using hm)
        have h1' : nodupB (acc ++ [t]) = true := by
          rw [nodupB_iff] at h1 ⊢
          simp [List.nodup_append, h1, hnm]
        have h2' : nodupB ((acc ++ [t]) ++ ts) = false := by
          rw [List.append_assoc]
          simpa using h2
        obtain ⟨t2, hcount, herr⟩ := ih (acc ++ [t]) h1' h2'
        refine ⟨t2, ?_, ?_⟩
        · rw [List.append_assoc] at hcount
          simpa using hcount
        · rw [addHeaders, if_neg hc]
          exact herr

/-- A quoted field with no further quote on its line runs into the end of
the line and raises the unterminated-literal error. -/
theorem quotedTok_unterminated :
    ∀ (rest : List Nat), ¬ (0x22 ∈ rest) →
      quotedTok rest = .error (cp "Unterminated string literal.") := by
  intro rest
  induction rest with
  | nil => intro _; rfl
  | cons c r ih =>
      intro h
      have hc : c ≠ 0x22 := fun e => h (by simp [e])
      have hr : ¬ (0x22 ∈ r) := fun m => h (by simp [m])
      rw [quotedTok.eq_def]
      simp only []
      rw [if_neg hc, ih hr]

/-- C8: constructing a CSV fails on a body row whose field count differs
from the header's column count, on a quoted field left unterminated at the
end of its line, and on two equal header cells, with the duplicate-header
error naming a repeated header.  Stated as: a successful construction
excludes the first and third conditions; the duplicate-header loop fails
naming a header occurring twice; an unterminated quoted field fails the
tokenizer; plus one concrete run of the constructor per failure mode. -/
theorem C8_csv_errors :
    (∀ hline rest d, CSV.make (hline :: rest) = .ok d →
        nodupB d.headers = true
      ∧ ∀ line ∈ rest, ∃ toks, tokenize line = .ok toks ∧ toks.length = d.headers.length)
  ∧ (∀ toks, nodupB toks = false →
        ∃ t, 2 ≤ toks.count t ∧
          addHeaders [] toks = .error (cp "Duplicate column header: " ++ t))
  ∧ (∀ rest, ¬ (0x22 ∈ rest) →
        readOneTokenFrom (0x22 :: rest) = .error (cp "Unterminated string literal."))
  ∧ CSV.make [cp "a,b", cp "x,\"unterm"] = .error (cp "Unterminated string literal.")
  ∧ CSV.make [cp "a,a"] = .error (cp "Duplicate column header: a")
  ∧ CSV.make [cp "a,b", cp "1,2,3"] = .error (cp "Lines have varying number of entries.") := by
  refine ⟨?_, ?_, ?_, rfl, rfl, rfl⟩
  · intro hline rest d h
    rw [CSV.make] at h
    cases hh : readHeaders (hline :: rest) with
    | error m => rw [hh] at h; exact Except.noConfusion h
    | ok p =>
        rw [hh] at h
        obtain ⟨hs, rest2⟩ := p
        dsimp only at h
        rw [readHeaders] at hh
        cases htok : tokenize hline with
        | error m => rw [htok] at hh; exact Except.noConfusion hh
        | ok toks =>
            rw [htok] at hh
            dsimp only at hh
            cases hadd : addHeaders [] toks with
            | error m => rw [hadd] at hh; exact Except.noConfusion hh
            | ok hs2 =>
                rw [hadd] at hh
                dsimp only at hh
                cases hh
                cases hb : readBody hs.length rest with
                | error m => rw [hb] at h; exact Except.noConfusion h
                | ok rows =>
                    rw [hb] at h
                    dsimp only at h
                    cases h
                    exact ⟨addHeaders_ok toks [] hs hadd rfl,
                           readBody_ok rest hs.length rows hb⟩
  · intro toks h
    have := addHeaders_dup toks [] rfl (by simpa using h)
    simpa using this
  · intro rest h
    rw [show readOneTokenFrom (0x22 :: rest) = quotedTok rest from rfl]
    exact quotedTok_unterminated rest h

/-- Witness for C8 at concrete inputs. -/
theorem C8_witness :
    nodupB [cp "a", cp "b"] = true
  ∧ (∃ t, 2 ≤ ([cp "a", cp "a"]).count t ∧
        addHeaders [] [cp "a", cp "a"] = .error (cp "Duplicate column header: " ++ t))
  ∧ readOneTokenFrom (0x22 :: cp "abc") = .error (cp "Unterminated string literal.") := by
  refine ⟨?_, C8_csv_errors.2.1 [cp "a", cp "a"] (by decide),
          C8_csv_errors.2.2.1 (cp "abc") (by decide)⟩
  exact (C8_csv_errors.1 (cp "a,b") [cp "1,2"] ⟨[cp "a", cp "b"], [[cp "1", cp "2"]]⟩ rfl).1

/-! ## Round-trip machinery (claim C1)

The goal is `JSON.parse (serValue v) = .ok v` for every literal tree `v`.
The lemmas follow the structure of the parser: character-level facts first
(expected literals, whitespace, hex groups, the string loop), then one lemma
per recursive-descent routine, glued together by the nested induction on the
value tree.
-/

theorem expectStr_self : ∀ (s l : List Nat), expectStr (s ++ l) s = .ok l := by
  intro s
  induction s with
  | nil => intro l; rfl
  | cons c s ih =>
      intro l
      show expectStr (c :: (s ++ l)) (c :: s) = .ok l
      rw [expectStr, expectChar, if_pos rfl]
      exact ih l

theorem dropWs_cons (c : Nat) (l : List Nat) (h : isWs c = false) :
    dropWs (c :: l) = c :: l := by
  simp [dropWs, List.dropWhile_cons, h]

theorem hexVal_hexDigitChar : ∀ d, d < 16 → hexVal (hexDigitChar d) = some d := by decide

theorem hex4Val_toHex4 (n : Nat) (hn : n < 0x10000) (r : List Nat) :
    hex4Val (toHex4 n ++ r) = some n := by
  show hex4Val (hexDigitChar (n / 4096 % 16) :: hexDigitChar (n / 256 % 16) ::
       hexDigitChar (n / 16 % 16) :: hexDigitChar (n % 16) :: r) = some n
  rw [hex4Val]
  rw [hexVal_hexDigitChar _ (by omega), hexVal_hexDigitChar _ (by omega),
      hexVal_hexDigitChar _ (by omega), hexVal_hexDigitChar _ (by omega)]
  show some _ = some n
  congr 1
  omega

theorem toHex4_drop (n : Nat) (r : List Nat) : (toHex4 n ++ r).drop 4 = r := rfl

theorem toHex4_length (n : Nat) : (toHex4 n).length = 4 := rfl

/-- Reading back a single-unit escape group. -/
theorem readU16Tail_single (c : Nat) (h1 : c ≤ 0xFFFF)
    (h2 : ¬ (0xD800 ≤ c ∧ c ≤ 0xDFFF)) (r : List Nat) :
    readU16Tail (toHex4 c ++ r) = .ok (c, 4) := by
  unfold readU16Tail
  rw [hex4Val_toHex4 c (by omega) r]
  dsimp only
  rw [if_neg (by omega), if_neg (by omega)]

/-- Reading back the low half of a surrogate-pair escape group. -/
theorem readU16LowPart_ser (n1 : Nat) (n2 : Nat) (hn2 : 0xDC00 ≤ n2 ∧ n2 ≤ 0xDFFF)
    (hlt : n2 < 0x10000) (r : List Nat) :
    readU16LowPart n1 (0x5C :: 0x75 :: (toHex4 n2 ++ r)) =
      .ok (0x10000 + (n1 - 0xD800) * 0x400 + (n2 - 0xDC00), 10) := by
  unfold readU16LowPart
  dsimp only
  rw [hex4Val_toHex4 _ hlt]
  dsimp only
  rw [if_pos hn2]

/-- Reading back a surrogate-pair escape group (abstract halves, so that the
kernel never has to look inside the surrogate arithmetic). -/
theorem readU16Tail_pair (hi lo c : Nat)
    (hhi : 0xD800 ≤ hi ∧ hi ≤ 0xDBFF) (hlo : 0xDC00 ≤ lo ∧ lo ≤ 0xDFFF)
    (hc : 0x10000 + (hi - 0xD800) * 0x400 + (lo - 0xDC00) = c) (r : List Nat) :
    readU16Tail (toHex4 hi ++ (0x5C :: 0x75 :: toHex4 lo) ++ r) = .ok (c, 10) := by
  rw [List.append_assoc]
  unfold readU16Tail
  rw [hex4Val_toHex4 _ (by omega)]
  dsimp only
  rw [if_pos hhi]
  rw [toHex4_drop]
  simp only [List.cons_append]
  rw [readU16LowPart_ser _ _ hlo (by omega)]
  rw [hc]

/-! ### Stepping the readString character loop -/

theorem rsl_quote (f : Nat) (acc rest : List Nat) :
    readStringLoop (f + 1) acc (0x22 :: rest) = .ok (acc.reverse, rest) := rfl

theorem rsl_esc22 (f : Nat) (acc rest : List Nat) :
    readStringLoop (f + 1) acc (0x5C :: 0x22 :: rest) =
      readStringLoop f (0x22 :: acc) rest := rfl

theorem rsl_esc5C (f : Nat) (acc rest : List Nat) :
    readStringLoop (f + 1) acc (0x5C :: 0x5C :: rest) =
      readStringLoop f (0x5C :: acc) rest := rfl

theorem rsl_esc2F (f : Nat) (acc rest : List Nat) :
    readStringLoop (f + 1) acc (0x5C :: 0x2F :: rest) =
      readStringLoop f (0x2F :: acc) rest := rfl

theorem rsl_esc62 (f : Nat) (acc rest : List Nat) :
    readStringLoop (f + 1) acc (0x5C :: 0x62 :: rest) =
      readStringLoop f (0x08 :: acc) rest := rfl

theorem rsl_esc6E (f : Nat) (acc rest : List Nat) :
    readStringLoop (f + 1) acc (0x5C :: 0x6E :: rest) =
      readStringLoop f (0x0A :: acc) rest := rfl

theorem rsl_esc72 (f : Nat) (acc rest : List Nat) :
    readStringLoop (f + 1) acc (0x5C :: 0x72 :: rest) =
      readStringLoop f (0x0D :: acc) rest := rfl

theorem rsl_esc74 (f : Nat) (acc rest : List Nat) :
    readStringLoop (f + 1) acc (0x5C :: 0x74 :: rest) =
      readStringLoop f (0x09 :: acc) rest := rfl

theorem rsl_u (f : Nat) (acc rest2 : List Nat) :
    readStringLoop (f + 1) acc (0x5C :: 0x75 :: rest2) =
      (match readU16Tail rest2 with
       | .error m => .error m
       | .ok (ch, n) => readStringLoop f (ch :: acc) (rest2.drop n)) := rfl

theorem rsl_raw (f : Nat) (acc : List Nat) (c : Nat) (rest : List Nat)
    (h1 : 0x20 ≤ c) (h2 : c ≤ 0x10FFFF) (h3 : c ≠ 0x22) (h4 : c ≠ 0x5C) :
    readStringLoop (f + 1) acc (c :: rest) =
      readStringLoop f (c % 0x100 :: acc) rest := by
  conv_lhs => rw [readStringLoop.eq_def]
  dsimp only
  rw [if_neg (show ¬(c < 0x20 ∨ 0x10FFFF < c) by omega), if_neg h3, if_pos h4]

theorem pair_drop (hi lo : Nat) (rest : List Nat) :
    (toHex4 hi ++ 0x5C :: 0x75 :: (toHex4 lo ++ rest)).drop 10 = rest := rfl

/-- Unpacking the scalar-value check. -/
theorem scalarOk_iff (c : Nat) :
    scalarOk c = true ↔ c ≤ 0x10FFFF ∧ ¬ (0xD800 ≤ c ∧ c ≤ 0xDFFF) := by
  simp [scalarOk]
  omega

/-- The readString loop undoes the serializer's escaping, character by
character. -/
theorem readStringLoop_ser :
    ∀ (s : Msg), s.all scalarOk = true → ∀ (acc r : List Nat) (f : Nat),
      s.length < f →
      readStringLoop f acc (s.flatMap escapeChar ++ (0x22 :: r)) =
        .ok (acc.reverse ++ s, r) := by
  intro s
  induction s with
  | nil =>
      intro _ acc r f hf
      obtain ⟨f2, rfl⟩ : ∃ f2, f = f2 + 1 := ⟨f - 1, by omega⟩
      simp only [List.flatMap_nil, List.nil_append]
      rw [rsl_quote]
      simp
  | cons c s ih =>
      intro hall acc r f hf
      obtain ⟨f2, rfl⟩ : ∃ f2, f = f2 + 1 := ⟨f - 1, by omega⟩
      simp only [List.all_cons, Bool.and_eq_true] at hall
      have hsc := (scalarOk_iff c).mp hall.1
      have hlen : s.length < f2 := by
        simp only [List.length_cons] at hf
        omega
      have hih := ih hall.2 (c :: acc) r f2 hlen
      have hfin : (c :: acc).reverse ++ s = acc.reverse ++ c :: s := by
        simp
      simp only [List.flatMap_cons, List.append_assoc]
      by_cases h22 : c = 0x22
      · subst h22
        rw [show escapeChar 0x22 = [0x5C, 0x22] from rfl]
        simp only [List.cons_append, List.nil_append]
        rw [rsl_esc22, hih, hfin]
      by_cases h5C : c = 0x5C
      · subst h5C
        rw [show escapeChar 0x5C = [0x5C, 0x5C] from rfl]
        simp only [List.cons_append, List.nil_append]
        rw [rsl_esc5C, hih, hfin]
      by_cases h2F : c = 0x2F
      · subst h2F
        rw [show escapeChar 0x2F = [0x5C, 0x2F] from rfl]
        simp only [List.cons_append, List.nil_append]
        rw [rsl_esc2F, hih, hfin]
      by_cases h08 : c = 0x08
      · subst h08
        rw [show escapeChar 0x08 = [0x5C, 0x62] from rfl]
        simp only [List.cons_append, List.nil_append]
        rw [rsl_esc62, hih, hfin]
      by_cases h0A : c = 0x0A
      · subst h0A
        rw [show escapeChar 0x0A = [0x5C, 0x6E] from rfl]
        simp only [List.cons_append, List.nil_append]
        rw [rsl_esc6E, hih, hfin]
      by_cases h0D : c = 0x0D
      · subst h0D
        rw [show escapeChar 0x0D = [0x5C, 0x72] from rfl]
        simp only [List.cons_append, List.nil_append]
        rw [rsl_esc72, hih, hfin]
      by_cases h09 : c = 0x09
      · subst h09
        rw [show escapeChar 0x09 = [0x5C, 0x74] from rfl]
        simp only [List.cons_append, List.nil_append]
        rw [rsl_esc74, hih, hfin]
      by_cases hrange : 0x20 ≤ c ∧ c ≤ 0x7F
      · -- raw pass-through
        have hesc : escapeChar c = [c] := by
          simp [escapeChar, h22, h5C, h2F, h08, h0A, h0D, h09, hrange]
        rw [hesc]
        simp only [List.cons_append, List.nil_append]
        rw [rsl_raw f2 acc c _ hrange.1 (by omega) h22 h5C]
        rw [Nat.mod_eq_of_lt (by omega : c < 0x100)]
        rw [hih, hfin]
      · -- \uXXXX escape
        have hesc : escapeChar c = utf16EscapeFor c := by
          simp [escapeChar, h22, h5C, h2F, h08, h0A, h0D, h09, hrange]
        rw [hesc]
        by_cases hbmp : c ≤ 0xFFFF
        · rw [show utf16EscapeFor c = 0x5C :: 0x75 :: toHex4 c from by
              rw [utf16EscapeFor, if_pos hbmp]]
          simp only [List.cons_append]
          rw [rsl_u]
          rw [readU16Tail_single c hbmp hsc.2]
          try dsimp only
          rw [toHex4_drop, hih, hfin]
        · have hup : c ≤ 0x10FFFF := hsc.1
          have hmod := Nat.mod_lt (c - 0x10000) (show 0 < 0x400 by omega)
          rw [show utf16EscapeFor c =
                (0x5C :: 0x75 :: toHex4 (0xD800 + (c - 0x10000) / 0x400)) ++
                (0x5C :: 0x75 :: toHex4 (0xDC00 + (c - 0x10000) % 0x400)) from by
              rw [utf16EscapeFor, if_neg (by omega)]]
          simp only [List.cons_append, List.append_assoc]
          rw [rsl_u]
          have hpair := readU16Tail_pair (0xD800 + (c - 0x10000) / 0x400)
              (0xDC00 + (c - 0x10000) % 0x400) c
              (by constructor <;> omega) (by constructor <;> omega)
              (by have := Nat.div_add_mod (c - 0x10000) 0x400; omega)
              (s.flatMap escapeChar ++ (0x22 :: r))
          simp only [List.append_assoc, List.cons_append] at hpair
          rw [hpair]
          try dsimp only
          rw [pair_drop, hih, hfin]

theorem escapeChar_length_pos (c : Nat) : 1 ≤ (escapeChar c).length := by
  unfold escapeChar
  repeat' split
  all_goals first
  | simp
  | (unfold utf16EscapeFor; split <;> simp [toHex4])

theorem length_le_flatMap (s : Msg) : s.length ≤ (s.flatMap escapeChar).length := by
  induction s with
  | nil => simp
  | cons c s ih =>
      simp only [List.flatMap_cons, List.length_append, List.length_cons]
      have := escapeChar_length_pos c
      omega

/-- `readString` undoes `printString`, leaving the rest of the input. -/
theorem readString_ser (s : Msg) (hs : s.all scalarOk = true) (r : List Nat) :
    readString (printString s ++ r) = .ok (s, r) := by
  have e1 : printString s ++ r = 0x22 :: (s.flatMap escapeChar ++ (0x22 :: r)) := by
    simp [printString, List.cons_append, List.append_assoc]
  rw [e1]
  unfold readString
  rw [show expectChar (0x22 :: (s.flatMap escapeChar ++ (0x22 :: r))) 0x22 =
        .ok (s.flatMap escapeChar ++ (0x22 :: r)) from rfl]
  dsimp only
  have hb := length_le_flatMap s
  have := readStringLoop_ser s hs [] r
      ((s.flatMap escapeChar ++ (0x22 :: r)).length + 1)
      (by simp only [List.length_append, List.length_cons]; omega)
  simpa using this

/-! ### Heads of serialized values and stepping `run` -/

/-- Every serialized literal tree starts with one of the six dispatch
characters `n t f " [ {`. -/
theorem serValue_head (v : JSON) (h : litTree v = true) :
    ∃ c t, serValue v = c :: t ∧
      c ∈ ([0x6E, 0x74, 0x66, 0x22, 0x5B, 0x7B] : List Nat) := by
  cases v with
  | null => exact ⟨0x6E, _, rfl, by decide⟩
  | boolean b =>
      cases b
      · exact ⟨0x66, _, rfl, by decide⟩
      · exact ⟨0x74, _, rfl, by decide⟩
  | number q => exact absurd h (by simp [litTree])
  | string s => exact ⟨0x22, _, rfl, by decide⟩
  | array es => exact ⟨0x5B, _, rfl, by decide⟩
  | object ms => exact ⟨0x7B, _, rfl, by decide⟩

/-- Serialized output never starts with whitespace, so the surrounding
whitespace skips of `readElement` are no-ops on it. -/
theorem dropWs_serValue (v : JSON) (h : litTree v = true) (x : List Nat) :
    dropWs (serValue v ++ x) = serValue v ++ x := by
  obtain ⟨c, t, he, hc⟩ := serValue_head v h
  rw [he]
  simp only [List.cons_append]
  apply dropWs_cons
  simp only [List.mem_cons] at hc
  rcases hc with rfl | rfl | rfl | rfl | rfl | rfl | hc
  any_goals rfl
  exact absurd hc (List.not_mem_nil c)

theorem run_elem (f : Nat) (l : List Nat) :
    run (f + 1) .element l =
      (match run f .value (dropWs l) with
       | .ok (v, r) => .ok (v, dropWs r)
       | .error m => .error m) := rfl

theorem run_value_obj (f : Nat) (l : List Nat) :
    run (f + 1) .value (0x7B :: l) = run f .objectM (0x7B :: l) := rfl

theorem run_value_arr (f : Nat) (l : List Nat) :
    run (f + 1) .value (0x5B :: l) = run f .arrayM (0x5B :: l) := rfl

theorem run_value_str (f : Nat) (l : List Nat) :
    run (f + 1) .value (0x22 :: l) =
      (match readString (0x22 :: l) with
       | .error m => .error m
       | .ok (s, r) => .ok (.string s, r)) := rfl

theorem run_value_t (f : Nat) (l : List Nat) :
    run (f + 1) .value (0x74 :: l) =
      (match readBoolean (0x74 :: l) with
       | .error m => .error m
       | .ok (b, r) => .ok (.boolean b, r)) := rfl

theorem run_value_f (f : Nat) (l : List Nat) :
    run (f + 1) .value (0x66 :: l) =
      (match readBoolean (0x66 :: l) with
       | .error m => .error m
       | .ok (b, r) => .ok (.boolean b, r)) := rfl

theorem run_value_n (f : Nat) (l : List Nat) :
    run (f + 1) .value (0x6E :: l) =
      (match readNull (0x6E :: l) with
       | .error m => .error m
       | .ok r => .ok (.null, r)) := rfl

theorem run_obj_step (f : Nat) (l : List Nat) :
    run (f + 1) .objectM (0x7B :: l) =
      (match l with
       | 0x7D :: r2 => .ok (.object [], r2)
       | _ => run f (.membersLoop []) l) := rfl

theorem run_arr_step (f : Nat) (l : List Nat) :
    run (f + 1) .arrayM (0x5B :: l) =
      (match l with
       | 0x5D :: r2 => .ok (.array [], r2)
       | _ => run f (.elemsLoop []) l) := rfl

theorem run_members_step (f : Nat) (acc : List (Msg × JSON)) (l : List Nat) :
    run (f + 1) (.membersLoop acc) l =
      (match readString (dropWs l) with
       | .error m => .error m
       | .ok (key, l2) =>
         match expectChar (dropWs l2) 0x3A with
         | .error m => .error m
         | .ok l3 =>
           match run f .element l3 with
           | .error m => .error m
           | .ok (v, l4) =>
             if objContains acc key then
               .error (parseErr (cp "Duplicate key: " ++ key))
             else
               match l4 with
               | [] => .error eofMsg
               | c :: l5 =>
                 if c = 0x7D then .ok (.object (acc ++ [(key, v)]), l5)
                 else if c = 0x2C then run f (.membersLoop (acc ++ [(key, v)])) l5
                 else .error (parseErr (cp "Expected , or \x7d, got " ++ [c]))) := rfl

theorem run_elems_step (f : Nat) (acc : List JSON) (l : List Nat) :
    run (f + 1) (.elemsLoop acc) l =
      (match run f .element l with
       | .error m => .error m
       | .ok (v, l2) =>
         match l2 with
         | [] => .error eofMsg
         | c :: l3 =>
           if c = 0x5D then .ok (.array (acc ++ [v]), l3)
           else if c = 0x2C then run f (.elemsLoop (acc ++ [v])) l3
           else .error (parseErr (cp "Expected , or ], got " ++ [c]))) := rfl

theorem readNull_ser (r : List Nat) : readNull (cp "null" ++ r) = .ok r :=
  expectStr_self (cp "null") r

theorem readBoolean_true (r : List Nat) :
    readBoolean (cp "true" ++ r) = .ok (true, r) := by
  have h : readBoolean (cp "true" ++ r) =
      (expectStr (cp "true" ++ r) (cp "true")).map (fun r => (true, r)) := rfl
  rw [h, expectStr_self]
  rfl

theorem readBoolean_false (r : List Nat) :
    readBoolean (cp "false" ++ r) = .ok (false, r) := by
  have h : readBoolean (cp "false" ++ r) =
      (expectStr (cp "false" ++ r) (cp "false")).map (fun r => (false, r)) := rfl
  rw [h, expectStr_self]
  rfl

/-- The inductive property of the round trip: on the serialized form of a
literal tree, the value reader returns exactly that tree and consumes
exactly its text. -/
def ValOk (v : JSON) : Prop :=
  litTree v = true → ∀ f r, needV v < f →
    run f .value (serValue v ++ r) = .ok (v, r)

/-- An element is its surrounding whitespace plus a value; serialized text
has none in front, and the trailing skip consumes whitespace of the
remainder. -/
theorem valOk_elem {v : JSON} (hv : ValOk v) (hlit : litTree v = true)
    (f : Nat) (r : List Nat) (hf : needV v + 1 < f) :
    run f .element (serValue v ++ r) = .ok (v, dropWs r) := by
  obtain ⟨f2, rfl⟩ : ∃ f2, f = f2 + 1 := ⟨f - 1, by omega⟩
  rw [run_elem, dropWs_serValue v hlit r, hv hlit f2 r (by omega)]

theorem dropWs_printString (k : Msg) (x : List Nat) :
    dropWs (printString k ++ x) = printString k ++ x := by
  rw [show printString k ++ x = 0x22 :: (k.flatMap escapeChar ++ [0x22] ++ x) from by
      simp [printString]]
  exact dropWs_cons _ _ rfl

/-- The array loop eats one serialized element per iteration. -/
theorem elemsLoop_ser :
    ∀ (es : List JSON), (∀ e ∈ es, ValOk e) → litTreeL es = true → es ≠ [] →
      ∀ (acc : List JSON) (f : Nat) (r : List Nat), needL es < f →
        run f (.elemsLoop acc) (serElems es ++ 0x5D :: r) =
          .ok (.array (acc ++ es), r) := by
  intro es
  induction es with
  | nil => intro _ _ hne; exact absurd rfl hne
  | cons e es ih =>
      intro hvs hlit _ acc f r hf
      obtain ⟨f2, rfl⟩ : ∃ f2, f = f2 + 1 := ⟨f - 1, by omega⟩
      have hlit2 : litTree e = true ∧ litTreeL es = true := by
        have e2 : litTreeL (e :: es) = (litTree e && litTreeL es) := rfl
        rw [e2] at hlit
        simp only [Bool.and_eq_true] at hlit
        exact hlit
      have hneed : needL (e :: es) = 2 + needV e + needL es := rfl
      rw [hneed] at hf
      rw [run_elems_step]
      cases es with
      | nil =>
          rw [show serElems [e] = serValue e from rfl]
          have he := valOk_elem (hvs e (by simp)) hlit2.1 f2 (0x5D :: r) (by omega)
          rw [dropWs_cons 0x5D r rfl] at he
          rw [he]
          try dsimp only
          rw [if_pos rfl]
      | cons e2 es2 =>
          rw [show serElems (e :: e2 :: es2) =
                serValue e ++ 0x2C :: serElems (e2 :: es2) from rfl]
          simp only [List.cons_append, List.append_assoc]
          have he := valOk_elem (hvs e (by simp)) hlit2.1 f2
              (0x2C :: (serElems (e2 :: es2) ++ 0x5D :: r)) (by omega)
          rw [dropWs_cons 0x2C _ rfl] at he
          rw [he]
          try dsimp only
          rw [if_neg (by omega), if_pos rfl]
          have hrec := ih (fun x hx => hvs x (by simp [hx])) hlit2.2 (by simp)
              (acc ++ [e]) f2 r (by omega)
          rw [hrec]
          simp

/-- The object loop eats one serialized `"key":value` member per iteration;
global key uniqueness keeps every duplicate check green. -/
theorem membersLoop_ser :
    ∀ (ms : List (Msg × JSON)), (∀ m ∈ ms, ValOk m.2) → litTreeM ms = true →
      ms ≠ [] → ∀ (acc : List (Msg × JSON)) (f : Nat) (r : List Nat),
        nodupB ((acc ++ ms).map Prod.fst) = true → needM ms < f →
        run f (.membersLoop acc) (serMembers ms ++ 0x7D :: r) =
          .ok (.object (acc ++ ms), r) := by
  intro ms
  induction ms with
  | nil => intro _ _ hne; exact absurd rfl hne
  | cons m ms ih =>
      obtain ⟨k, v⟩ := m
      intro hvs hlit _ acc f r hnd hf
      obtain ⟨f2, rfl⟩ : ∃ f2, f = f2 + 1 := ⟨f - 1, by omega⟩
      have hlit1 : k.all scalarOk = true ∧ litTree v = true ∧ litTreeM ms = true := by
        have e : litTreeM ((k, v) :: ms) =
            (k.all scalarOk && litTree v && litTreeM ms) := rfl
        rw [e] at hlit
        simp only [Bool.and_eq_true] at hlit
        exact ⟨hlit.1.1, hlit.1.2, hlit.2⟩
      have hneed : needM ((k, v) :: ms) = 2 + needV v + needM ms := rfl
      rw [hneed] at hf
      have hkeys : ((acc ++ (k, v) :: ms).map Prod.fst) =
          acc.map Prod.fst ++ k :: ms.map Prod.fst := by simp
      rw [hkeys] at hnd
      have hnd2 := (nodupB_iff _).mp hnd
      have hk_not : k ∉ acc.map Prod.fst := by
        have hdis := (List.nodup_append.mp hnd2).2.2
        intro hm
        exact hdis hm (by simp)
      have hcont : ¬ (objContains acc k = true) := by
        simp only [objContains, List.contains, List.elem_iff]
        intro hx
        exact hk_not hx
      have hnd3 : nodupB (((acc ++ [(k, v)]) ++ ms).map Prod.fst) = true := by
        rw [show (((acc ++ [(k, v)]) ++ ms).map Prod.fst) =
              acc.map Prod.fst ++ k :: ms.map Prod.fst from by simp]
        exact hnd
      have hv0 : ValOk v := hvs (k, v) (by simp)
      have hl0 : litTree v = true := hlit1.2.1
      rw [run_members_step]
      cases ms with
      | nil =>
          rw [show serMembers [(k, v)] = printString k ++ 0x3A :: serValue v from rfl]
          simp only [List.cons_append, List.append_assoc]
          rw [dropWs_printString k _]
          rw [readString_ser k hlit1.1 (0x3A :: (serValue v ++ 0x7D :: r))]
          try dsimp only
          rw [dropWs_cons 0x3A _ rfl]
          rw [show expectChar (0x3A :: (serValue v ++ 0x7D :: r)) 0x3A =
                .ok (serValue v ++ 0x7D :: r) from rfl]
          try dsimp only
          have he := valOk_elem hv0 hl0 f2 (0x7D :: r) (by omega)
          rw [dropWs_cons 0x7D r rfl] at he
          rw [he]
          try dsimp only
          rw [if_neg hcont]
          try dsimp only
          rw [if_pos rfl]
      | cons m2 ms2 =>
          rw [show serMembers ((k, v) :: m2 :: ms2) =
                printString k ++ 0x3A :: serValue v ++ 0x2C :: serMembers (m2 :: ms2)
              from rfl]
          simp only [List.cons_append, List.append_assoc]
          rw [dropWs_printString k _]
          rw [readString_ser k hlit1.1
              (0x3A :: (serValue v ++ 0x2C :: (serMembers (m2 :: ms2) ++ 0x7D :: r)))]
          try dsimp only
          rw [dropWs_cons 0x3A _ rfl]
          rw [show expectChar (0x3A :: (serValue v ++ 0x2C ::
                (serMembers (m2 :: ms2) ++ 0x7D :: r))) 0x3A =
                .ok (serValue v ++ 0x2C :: (serMembers (m2 :: ms2) ++ 0x7D :: r))
              from rfl]
          try dsimp only
          have he := valOk_elem hv0 hl0 f2
              (0x2C :: (serMembers (m2 :: ms2) ++ 0x7D :: r)) (by omega)
          rw [dropWs_cons 0x2C _ rfl] at he
          rw [he]
          try dsimp only
          rw [if_neg hcont]
          try dsimp only
          rw [if_neg (by omega), if_pos rfl]
          have hrec := ih (fun x hx => hvs x (by simp [hx])) hlit1.2.2 (by simp)
              (acc ++ [(k, v)]) f2 r hnd3 (by omega)
          rw [hrec]
          simp

theorem serElems_head (e : JSON) (es : List JSON) (h : litTree e = true) :
    ∃ c t, serElems (e :: es) = c :: t ∧
      c ∈ ([0x6E, 0x74, 0x66, 0x22, 0x5B, 0x7B] : List Nat) := by
  obtain ⟨c, t, hser, hc⟩ := serValue_head e h
  cases es with
  | nil => exact ⟨c, t, by rw [show serElems [e] = serValue e from rfl, hser], hc⟩
  | cons e2 es2 =>
      refine ⟨c, t ++ 0x2C :: serElems (e2 :: es2), ?_, hc⟩
      rw [show serElems (e :: e2 :: es2) =
            serValue e ++ 0x2C :: serElems (e2 :: es2) from rfl, hser]
      simp

theorem serMembers_head (m : Msg × JSON) (ms : List (Msg × JSON)) :
    ∃ t, serMembers (m :: ms) = 0x22 :: t := by
  cases ms with
  | nil =>
      refine ⟨m.1.flatMap escapeChar ++ [0x22] ++ 0x3A :: serValue m.2, ?_⟩
      rw [show serMembers [m] = printString m.1 ++ 0x3A :: serValue m.2 from rfl]
      simp [printString]
  | cons m2 ms2 =>
      refine ⟨m.1.flatMap escapeChar ++ [0x22] ++ 0x3A :: serValue m.2 ++
        0x2C :: serMembers (m2 :: ms2), ?_⟩
      rw [show serMembers (m :: m2 :: ms2) = printString m.1 ++ 0x3A :: serValue m.2 ++
            0x2C :: serMembers (m2 :: ms2) from rfl]
      simp [printString]

/-- Every literal tree's serialization parses back to the same tree,
consuming exactly the serialized text. -/
theorem serValue_roundtrip : ∀ v, ValOk v := by
  intro v
  refine JSON.indNested ?_ ?_ ?_ ?_ ?_ ?_ v
  · -- null
    intro _ f r hf
    obtain ⟨f2, rfl⟩ : ∃ f2, f = f2 + 1 := ⟨f - 1, by have : needV .null = 1 := rfl; omega⟩
    show run (f2 + 1) .value (0x6E :: (cp "ull" ++ r)) = .ok (.null, r)
    rw [run_value_n]
    rw [show readNull (0x6E :: (cp "ull" ++ r)) = .ok r from readNull_ser r]
  · -- boolean
    intro b _ f r hf
    obtain ⟨f2, rfl⟩ : ∃ f2, f = f2 + 1 :=
      ⟨f - 1, by have : needV (.boolean b) = 1 := rfl; omega⟩
    cases b
    · show run (f2 + 1) .value (0x66 :: (cp "alse" ++ r)) = .ok (.boolean false, r)
      rw [run_value_f]
      rw [show readBoolean (0x66 :: (cp "alse" ++ r)) = .ok (false, r) from
          readBoolean_false r]
    · show run (f2 + 1) .value (0x74 :: (cp "rue" ++ r)) = .ok (.boolean true, r)
      rw [run_value_t]
      rw [show readBoolean (0x74 :: (cp "rue" ++ r)) = .ok (true, r) from
          readBoolean_true r]
  · -- number: excluded by litTree
    intro q hlit
    exact absurd hlit (by simp [litTree])
  · -- string
    intro s hlit f r hf
    have hs : s.all scalarOk = true := by simpa [litTree] using hlit
    obtain ⟨f2, rfl⟩ : ∃ f2, f = f2 + 1 :=
      ⟨f - 1, by have : needV (.string s) = 1 := rfl; omega⟩
    show run (f2 + 1) .value (0x22 :: (s.flatMap escapeChar ++ [0x22] ++ r)) =
      .ok (.string s, r)
    rw [run_value_str]
    rw [show readString (0x22 :: (s.flatMap escapeChar ++ [0x22] ++ r)) = .ok (s, r)
        from readString_ser s hs r]
  · -- array
    intro es hP hlit f r hf
    have hlitL : litTreeL es = true := by simpa [litTree] using hlit
    have hneed : needV (.array es) = 2 + needL es := rfl
    rw [hneed] at hf
    obtain ⟨f2, rfl⟩ : ∃ f2, f = f2 + 1 := ⟨f - 1, by omega⟩
    show run (f2 + 1) .value (0x5B :: ((serElems es ++ [0x5D]) ++ r)) = .ok (.array es, r)
    rw [run_value_arr]
    obtain ⟨f3, rfl⟩ : ∃ f3, f2 = f3 + 1 := ⟨f2 - 1, by omega⟩
    rw [run_arr_step]
    rw [show (serElems es ++ [0x5D]) ++ r = serElems es ++ 0x5D :: r from by simp]
    cases es with
    | nil => rfl
    | cons e es2 =>
        have hlit2 : litTree e = true ∧ litTreeL es2 = true := by
          have e2 : litTreeL (e :: es2) = (litTree e && litTreeL es2) := rfl
          rw [e2] at hlitL
          simp only [Bool.and_eq_true] at hlitL
          exact hlitL
        obtain ⟨c, t, hser, hc⟩ := serElems_head e es2 hlit2.1
        rw [hser]
        simp only [List.cons_append]
        split
        · rename_i r2 heq
          injection heq with h1 _
          subst h1
          exact absurd hc (by decide)
        · rw [show c :: (t ++ 0x5D :: r) = (c :: t) ++ 0x5D :: r from by simp, ← hser]
          have hl : litTreeL (e :: es2) = true := by
            have e2 : litTreeL (e :: es2) = (litTree e && litTreeL es2) := rfl
            rw [e2]
            simp [hlit2.1, hlit2.2]
          rw [elemsLoop_ser (e :: es2) hP hl (by simp) [] f3 r (by omega)]
          simp
  · -- object
    intro ms hP hlit f r hf
    have hlit2 : nodupB (ms.map Prod.fst) = true ∧ litTreeM ms = true := by
      have e2 : litTree (.object ms) = (nodupB (ms.map Prod.fst) && litTreeM ms) := rfl
      rw [e2] at hlit
      simp only [Bool.and_eq_true] at hlit
      exact hlit
    have hneed : needV (.object ms) = 2 + needM ms := rfl
    rw [hneed] at hf
    obtain ⟨f2, rfl⟩ : ∃ f2, f = f2 + 1 := ⟨f - 1, by omega⟩
    show run (f2 + 1) .value (0x7B :: ((serMembers ms ++ [0x7D]) ++ r)) =
      .ok (.object ms, r)
    rw [run_value_obj]
    obtain ⟨f3, rfl⟩ : ∃ f3, f2 = f3 + 1 := ⟨f2 - 1, by omega⟩
    rw [run_obj_step]
    rw [show (serMembers ms ++ [0x7D]) ++ r = serMembers ms ++ 0x7D :: r from by simp]
    cases ms with
    | nil => rfl
    | cons m ms2 =>
        obtain ⟨t, hser⟩ := serMembers_head m ms2
        rw [hser]
        simp only [List.cons_append]
        rw [show (0x22 : Nat) :: (t ++ 0x7D :: r) = (0x22 :: t) ++ 0x7D :: r from by
            simp, ← hser]
        have hnd : nodupB ((([] : List (Msg × JSON)) ++ m :: ms2).map Prod.fst)
            = true := by simpa using hlit2.1
        rw [membersLoop_ser (m :: ms2) hP hlit2.2 (by simp) [] f3 r hnd (by omega)]
        simp

/-! ### Fuel accounting: `JSON.parse`'s fixed fuel suffices -/

theorem needL_bound (es : List JSON)
    (h : ∀ e ∈ es, litTree e = true → needV e ≤ 4 * (serValue e).length)
    (hl : litTreeL es = true) :
    needL es ≤ 4 * (serElems es).length + 2 := by
  induction es with
  | nil => simp [needL]
  | cons e rest ih =>
      have hlit2 : litTree e = true ∧ litTreeL rest = true := by
        have e2 : litTreeL (e :: rest) = (litTree e && litTreeL rest) := rfl
        rw [e2] at hl
        simp only [Bool.and_eq_true] at hl
        exact hl
      have hb := h e (by simp) hlit2.1
      have hneed : needL (e :: rest) = 2 + needV e + needL rest := rfl
      cases rest with
      | nil =>
          rw [hneed, show serElems [e] = serValue e from rfl]
          have : needL ([] : List JSON) = 0 := rfl
          omega
      | cons e2 es2 =>
          have ih2 := ih (fun x hx => h x (by simp [hx])) hlit2.2
          rw [hneed, show serElems (e :: e2 :: es2) =
              serValue e ++ 0x2C :: serElems (e2 :: es2) from rfl]
          simp only [List.length_append, List.length_cons]
          omega

theorem needM_bound (ms : List (Msg × JSON))
    (h : ∀ m ∈ ms, litTree m.2 = true → needV m.2 ≤ 4 * (serValue m.2).length)
    (hl : litTreeM ms = true) :
    needM ms ≤ 4 * (serMembers ms).length + 2 := by
  induction ms with
  | nil => simp [needM]
  | cons m rest ih =>
      obtain ⟨k, v⟩ := m
      have hlit2 : litTree v = true ∧ litTreeM rest = true := by
        have e2 : litTreeM ((k, v) :: rest) =
            (k.all scalarOk && litTree v && litTreeM rest) := rfl
        rw [e2] at hl
        simp only [Bool.and_eq_true] at hl
        exact ⟨hl.1.2, hl.2⟩
      have hb : needV v ≤ 4 * (serValue v).length := h (k, v) (by simp) hlit2.1
      have hneed : needM ((k, v) :: rest) = 2 + needV v + needM rest := rfl
      cases rest with
      | nil =>
          rw [hneed, show serMembers [(k, v)] =
              printString k ++ 0x3A :: serValue v from rfl]
          have h0 : needM ([] : List (Msg × JSON)) = 0 := rfl
          simp only [List.length_append, List.length_cons]
          omega
      | cons m2 ms2 =>
          have ih2 := ih (fun x hx => h x (by simp [hx])) hlit2.2
          rw [hneed, show serMembers ((k, v) :: m2 :: ms2) =
              printString k ++ 0x3A :: serValue v ++ 0x2C :: serMembers (m2 :: ms2)
              from rfl]
          simp only [List.length_append, List.length_cons]
          omega

theorem needV_bound : ∀ v, litTree v = true → needV v ≤ 4 * (serValue v).length := by
  intro v
  refine @JSON.indNested
    (fun v => litTree v = true → needV v ≤ 4 * (serValue v).length)
    ?_ ?_ ?_ ?_ ?_ ?_ v
  · intro _; show 1 ≤ 4 * 4; omega
  · intro b _
    cases b
    · show 1 ≤ 4 * 5; omega
    · show 1 ≤ 4 * 4; omega
  · intro q hlit
    exact absurd hlit (by simp [litTree])
  · intro s _
    show 1 ≤ 4 * (printString s).length
    rw [show printString s = 0x22 :: (s.flatMap escapeChar) ++ [0x22] from rfl]
    simp only [List.cons_append, List.length_cons, List.length_append]
    omega
  · intro es hP hlit
    have hlitL : litTreeL es = true := by simpa [litTree] using hlit
    have hb := needL_bound es hP hlitL
    have hneed : needV (.array es) = 2 + needL es := rfl
    rw [hneed, show serValue (.array es) = 0x5B :: serElems es ++ [0x5D] from rfl]
    simp only [List.cons_append, List.length_cons, List.length_append]
    omega
  · intro ms hP hlit
    have hlitM : litTreeM ms = true := by
      have e2 : litTree (.object ms) = (nodupB (ms.map Prod.fst) && litTreeM ms) := rfl
      rw [e2] at hlit
      simp only [Bool.and_eq_true] at hlit
      exact hlit.2
    have hb := needM_bound ms hP hlitM
    have hneed : needV (.object ms) = 2 + needM ms := rfl
    rw [hneed, show serValue (.object ms) = 0x7B :: serMembers ms ++ [0x7D] from rfl]
    simp only [List.cons_append, List.length_cons, List.length_append]
    omega

/-! ## Claim C1: the parse/serialize round trip -/

/-- C1: for every Value tree built from Null, Boolean, String, Array and
Object literals (no Number payloads; string payloads and keys are Unicode
scalar values, object keys unique as the map construction guarantees),
parsing the serialized text returns exactly the same tree: same variant at
every node, same scalar values, same array order, same object keys and
per-key values (the embedding even preserves the member list order). -/
theorem C1_round_trip (v : JSON) (h : litTree v = true) :
    JSON.parse (serValue v) = .ok v := by
  unfold JSON.parse
  have hb := needV_bound v h
  have he := valOk_elem (serValue_roundtrip v) h (4 * (serValue v).length + 8) []
      (by omega)
  rw [show serValue v ++ [] = serValue v from by simp] at he
  rw [he]
  rfl

/-- Witness for C1 at a concrete tree with nesting, strings (including an
escaped character and a non-ASCII code point), booleans and null. -/
theorem C1_witness :
    litTree (JSON.object
      [(cp "a", .array [.string (cp "hi✓"), .boolean true]),
       (cp "b", .null)]) = true
  ∧ JSON.parse (serValue (JSON.object
      [(cp "a", .array [.string (cp "hi✓"), .boolean true]),
       (cp "b", .null)])) =
    .ok (JSON.object
      [(cp "a", .array [.string (cp "hi✓"), .boolean true]),
       (cp "b", .null)]) :=
  ⟨rfl, C1_round_trip _ rfl⟩

/-! ## Claim C3: duplicate object keys are rejected -/

theorem nodupB_snoc (A : List Msg) (k : Msg) (hA : nodupB A = true)
    (hk : ¬ (A.contains k = true)) : nodupB (A ++ [k]) = true := by
  rw [nodupB_iff] at hA ⊢
  have hkm : k ∉ A := by
    intro hm
    exact hk (by simpa [List.contains, List.elem_iff] using hm)
  simp [List.nodup_append, hA, hkm]

theorem nodupKeysM_snoc (acc : List (Msg × JSON)) (k : Msg) (v : JSON)
    (h1 : nodupKeysM acc = true) (h2 : nodupKeys v = true) :
    nodupKeysM (acc ++ [(k, v)]) = true := by
  induction acc with
  | nil => simpa [nodupKeysM] using h2
  | cons m rest ih =>
      have e : nodupKeysM (m :: rest) = (nodupKeys m.2 && nodupKeysM rest) := rfl
      rw [e] at h1
      simp only [Bool.and_eq_true] at h1
      have e2 : nodupKeysM (m :: (rest ++ [(k, v)])) =
          (nodupKeys m.2 && nodupKeysM (rest ++ [(k, v)])) := rfl
      show nodupKeysM (m :: (rest ++ [(k, v)])) = true
      rw [e2]
      simp [h1.1, ih h1.2]

theorem nodupKeysL_snoc (acc : List JSON) (v : JSON)
    (h1 : nodupKeysL acc = true) (h2 : nodupKeys v = true) :
    nodupKeysL (acc ++ [v]) = true := by
  induction acc with
  | nil => simpa [nodupKeysL] using h2
  | cons e rest ih =>
      have e1 : nodupKeysL (e :: rest) = (nodupKeys e && nodupKeysL rest) := rfl
      rw [e1] at h1
      simp only [Bool.and_eq_true] at h1
      show nodupKeysL (e :: (rest ++ [v])) = true
      have e2 : nodupKeysL (e :: (rest ++ [v])) =
          (nodupKeys e && nodupKeysL (rest ++ [v])) := rfl
      rw [e2]
      simp [h1.1, ih h1.2]

/-- The accumulator invariant of the two parser loops. -/
def modeInv : PMode → Prop
  | .membersLoop acc => nodupB (acc.map Prod.fst) = true ∧ nodupKeysM acc = true
  | .elemsLoop acc => nodupKeysL acc = true
  | _ => True

/-- Every value the parser returns has pairwise-distinct keys in each of its
object nodes: the `insert`-and-check in `readObject` never lets a duplicate
through. -/
theorem run_nodupKeys :
    ∀ (f : Nat) (mode : PMode) (l : List Nat) (v : JSON) (r : List Nat),
      run f mode l = .ok (v, r) → modeInv mode → nodupKeys v = true := by
  intro f
  induction f with
  | zero => intro mode l v r h _; exact Except.noConfusion h
  | succ f ih =>
      intro mode l v r h hinv
      cases mode with
      | element =>
          rw [run_elem] at h
          cases hr : run f .value (dropWs l) with
          | error m => rw [hr] at h; exact Except.noConfusion h
          | ok p =>
              rw [hr] at h
              obtain ⟨v2, r2⟩ := p
              cases h
              exact ih .value (dropWs l) _ _ hr trivial
      | value =>
          simp only [run] at h
          cases l with
          | nil => exact Except.noConfusion h
          | cons c t =>
              dsimp only at h
              split at h
              · exact ih .objectM (c :: t) v r h trivial
              split at h
              · exact ih .arrayM (c :: t) v r h trivial
              split at h
              · cases hrs : readString (c :: t) with
                | error m => rw [hrs] at h; exact Except.noConfusion h
                | ok p =>
                    rw [hrs] at h
                    obtain ⟨s, r2⟩ := p
                    cases h
                    rfl
              split at h
              · cases hrn : readNumber (c :: t) with
                | error m => rw [hrn] at h; exact Except.noConfusion h
                | ok p =>
                    rw [hrn] at h
                    obtain ⟨q, r2⟩ := p
                    cases h
                    rfl
              split at h
              · cases hrb : readBoolean (c :: t) with
                | error m => rw [hrb] at h; exact Except.noConfusion h
                | ok p =>
                    rw [hrb] at h
                    obtain ⟨b, r2⟩ := p
                    cases h
                    rfl
              split at h
              · cases hrn : readNull (c :: t) with
                | error m => rw [hrn] at h; exact Except.noConfusion h
                | ok r2 =>
                    rw [hrn] at h
                    cases h
                    rfl
              · exact Except.noConfusion h
      | objectM =>
          rw [show run (f + 1) .objectM l =
                (match expectChar l 0x7B with
                 | .error m => .error m
                 | .ok r =>
                   match r with
                   | 0x7D :: r2 => .ok (.object [], r2)
                   | _ => run f (.membersLoop []) r) from rfl] at h
          cases hec : expectChar l 0x7B with
          | error m => rw [hec] at h; exact Except.noConfusion h
          | ok r1 =>
              rw [hec] at h
              dsimp only at h
              split at h
              · cases h; rfl
              · exact ih (.membersLoop []) r1 v r h ⟨rfl, rfl⟩
      | arrayM =>
          rw [show run (f + 1) .arrayM l =
                (match expectChar l 0x5B with
                 | .error m => .error m
                 | .ok r =>
                   match r with
                   | 0x5D :: r2 => .ok (.array [], r2)
                   | _ => run f (.elemsLoop []) r) from rfl] at h
          cases hec : expectChar l 0x5B with
          | error m => rw [hec] at h; exact Except.noConfusion h
          | ok r1 =>
              rw [hec] at h
              dsimp only at h
              split at h
              · cases h; rfl
              · exact ih (.elemsLoop []) r1 v r h rfl
      | membersLoop acc =>
          obtain ⟨hnb, hkm⟩ := hinv
          rw [run_members_step] at h
          cases hrs : readString (dropWs l) with
          | error m => rw [hrs] at h; exact Except.noConfusion h
          | ok p =>
              rw [hrs] at h
              obtain ⟨key, l2⟩ := p
              dsimp only at h
              cases hec : expectChar (dropWs l2) 0x3A with
              | error m => rw [hec] at h; exact Except.noConfusion h
              | ok l3 =>
                  rw [hec] at h
                  dsimp only at h
                  cases hel : run f .element l3 with
                  | error m => rw [hel] at h; exact Except.noConfusion h
                  | ok p2 =>
                      rw [hel] at h
                      obtain ⟨v4, l4⟩ := p2
                      dsimp only at h
                      have hv4 := ih .element l3 v4 l4 hel trivial
                      split at h
                      · exact Except.noConfusion h
                      · rename_i hnc
                        have hnb2 : nodupB ((acc ++ [(key, v4)]).map Prod.fst) = true := by
                          rw [show (acc ++ [(key, v4)]).map Prod.fst =
                                acc.map Prod.fst ++ [key] from by simp]
                          exact nodupB_snoc _ _ hnb
                            (by simpa [objContains] using hnc)
                        have hkm2 := nodupKeysM_snoc acc key v4 hkm hv4
                        cases l4 with
                        | nil => exact Except.noConfusion h
                        | cons c l5 =>
                            dsimp only at h
                            by_cases h7D : c = 0x7D
                            · rw [if_pos h7D] at h
                              cases h
                              rw [show nodupKeys (.object (acc ++ [(key, v4)])) =
                                  (nodupB ((acc ++ [(key, v4)]).map Prod.fst) &&
                                   nodupKeysM (acc ++ [(key, v4)])) from rfl,
                                  hnb2, hkm2]
                              rfl
                            · rw [if_neg h7D] at h
                              by_cases h2C : c = 0x2C
                              · rw [if_pos h2C] at h
                                exact ih (.membersLoop (acc ++ [(key, v4)])) l5 v r h
                                  ⟨hnb2, hkm2⟩
                              · rw [if_neg h2C] at h
                                exact Except.noConfusion h
      | elemsLoop acc =>
          rw [run_elems_step] at h
          cases hel : run f .element l with
          | error m => rw [hel] at h; exact Except.noConfusion h
          | ok p =>
              rw [hel] at h
              obtain ⟨v2, l2⟩ := p
              dsimp only at h
              have hv2 := ih .element l v2 l2 hel trivial
              have hacc2 := nodupKeysL_snoc acc v2 hinv hv2
              cases l2 with
              | nil => exact Except.noConfusion h
              | cons c l3 =>
                  dsimp only at h
                  by_cases h5D : c = 0x5D
                  · rw [if_pos h5D] at h
                    cases h
                    rw [show nodupKeys (.array (acc ++ [v2])) =
                        nodupKeysL (acc ++ [v2]) from rfl]
                    exact hacc2
                  · rw [if_neg h5D] at h
                    by_cases h2C : c = 0x2C
                    · rw [if_pos h2C] at h
                      exact ih (.elemsLoop (acc ++ [v2])) l3 v r h hacc2
                    · rw [if_neg h2C] at h
                      exact Except.noConfusion h

/-- C3: parsing an object with a repeated key fails with a ParseError naming
the key (concrete run for `{"a":1,"a":2}`), and no parse ever returns a
Value containing an object node with duplicate keys. -/
theorem C3_duplicate_key :
    JSON.parse ([0x7B] ++ cp "\"a\":1,\"a\":2" ++ [0x7D]) =
      .error (parseErr (cp "Duplicate key: a"))
  ∧ (∀ (l : List Nat) (v : JSON), JSON.parse l = .ok v → nodupKeys v = true) := by
  constructor
  · rfl
  · intro l v h
    unfold JSON.parse at h
    cases hr : run (4 * l.length + 8) .element l with
    | error m => rw [hr] at h; exact Except.noConfusion h
    | ok p =>
        rw [hr] at h
        obtain ⟨v2, rest⟩ := p
        dsimp only at h
        cases rest with
        | nil => cases h; exact run_nodupKeys _ .element l _ _ hr trivial
        | cons c t => exact Except.noConfusion h

/-- Witness for C3: a successful concrete parse, fed through the theorem,
yields a duplicate-free value. -/
theorem C3_witness :
    nodupKeys (JSON.object [(cp "a", .number 1)]) = true := by
  have h : JSON.parse ([0x7B] ++ cp "\"a\":1" ++ [0x7D]) =
      .ok (.object [(cp "a", .number 1)]) := rfl
  exact C3_duplicate_key.2 _ _ h

/-! ## Claim C7: where whitespace is skipped -/

theorem dropWs_all (ws1 l : List Nat) (h : ∀ c ∈ ws1, isWs c = true) :
    dropWs (ws1 ++ l) = dropWs l := by
  induction ws1 with
  | nil => rfl
  | cons c t ih =>
      simp only [List.cons_append]
      rw [show dropWs (c :: (t ++ l)) = dropWs (t ++ l) from by
          simp [dropWs, List.dropWhile_cons, h c (by simp)]]
      exact ih (fun x hx => h x (by simp [hx]))

theorem dropWs_idem (l : List Nat) : dropWs (dropWs l) = dropWs l := by
  induction l with
  | nil => rfl
  | cons c t ih =>
      by_cases hc : isWs c = true
      · rw [show dropWs (c :: t) = dropWs t from by
            simp [dropWs, List.dropWhile_cons, hc]]
        exact ih
      · rw [show dropWs (c :: t) = c :: t from by
            simp [dropWs, List.dropWhile_cons, hc]]
        rw [show dropWs (c :: t) = c :: t from by
            simp [dropWs, List.dropWhile_cons, hc]]

/-- C7 counterexample: the input `{"a" :1}` carries whitespace between the
member's key string and the colon — a position that is neither immediately
before nor immediately after any `element` production — yet parsing
succeeds, so whitespace is accepted at a position the claim excludes. -/
theorem C7_counterexample :
    JSON.parse ([0x7B] ++ cp "\"a\" :1" ++ [0x7D]) =
      .ok (.object [(cp "a", .number 1)]) := rfl

/-- C7 (amended): whitespace is skipped immediately before and after every
element (parts 1 and 2: a leading all-whitespace block never changes the
result of `readElement`, and the remainder `readElement` leaves never starts
with whitespace), and additionally immediately before an object member's key
string and between the key string and its colon (parts 3 and 4); it is not
skipped elsewhere — in particular not between `[` and `]` of a would-be
empty array, nor inside a literal keyword (parts 5 and 6: both inputs are
rejected). -/
theorem C7_whitespace (f : Nat) (l : List Nat) :
    (∀ ws1, (∀ c ∈ ws1, isWs c = true) →
       run f .element (ws1 ++ l) = run f .element l)
  ∧ (∀ v r, run f .element l = .ok (v, r) → dropWs r = r)
  ∧ (∀ acc ws1, (∀ c ∈ ws1, isWs c = true) →
       run f (.membersLoop acc) (ws1 ++ l) = run f (.membersLoop acc) l)
  ∧ (∀ acc k rest ws2, k.all scalarOk = true → (∀ c ∈ ws2, isWs c = true) →
       run f (.membersLoop acc) (printString k ++ (ws2 ++ 0x3A :: rest)) =
         run f (.membersLoop acc) (printString k ++ 0x3A :: rest))
  ∧ JSON.parse (cp "[ ]") =
      .error (parseErr (cp "Not sure how to handle value starting with character ]"))
  ∧ JSON.parse (cp "nu ll") =
      .error (parseErr (cp "Expected " ++ [0x6C] ++ cp ", got " ++ [0x20])) := by
  refine ⟨?_, ?_, ?_, ?_, rfl, rfl⟩
  · intro ws1 hws
    cases f with
    | zero => rfl
    | succ f2 => rw [run_elem, run_elem, dropWs_all ws1 l hws]
  · intro v r h
    cases f with
    | zero => exact Except.noConfusion h
    | succ f2 =>
        rw [run_elem] at h
        cases hr : run f2 .value (dropWs l) with
        | error m => rw [hr] at h; exact Except.noConfusion h
        | ok p =>
            rw [hr] at h
            obtain ⟨v2, r2⟩ := p
            cases h
            exact dropWs_idem r2
  · intro acc ws1 hws
    cases f with
    | zero => rfl
    | succ f2 => rw [run_members_step, run_members_step, dropWs_all ws1 l hws]
  · intro acc k rest ws2 hk hws
    cases f with
    | zero => rfl
    | succ f2 =>
        rw [run_members_step, run_members_step]
        rw [dropWs_printString k (ws2 ++ 0x3A :: rest),
            dropWs_printString k (0x3A :: rest)]
        rw [readString_ser k hk (ws2 ++ 0x3A :: rest),
            readString_ser k hk (0x3A :: rest)]
        dsimp only
        rw [dropWs_all ws2 (0x3A :: rest) hws]

/-- Witness for C7 at concrete whitespace blocks and inputs. -/
theorem C7_witness :
    run 40 .element (cp "  " ++ cp "true") = run 40 .element (cp "true")
  ∧ run 40 (.membersLoop []) (printString (cp "a") ++ (cp " " ++ 0x3A :: cp "1,")) =
      run 40 (.membersLoop []) (printString (cp "a") ++ 0x3A :: cp "1,") := by
  constructor
  · exact (C7_whitespace 40 (cp "true")).1 (cp "  ") (by decide)
  · exact (C7_whitespace 40 (cp "1,")).2.2.2.1 [] (cp "a") (cp "1,") (cp " ")
      (by decide) (by decide)
